import Mathlib

set_option maxHeartbeats 1000000
set_option maxRecDepth 4096

/-!
Shallow embedding of nghttp2's `shrpx::DownstreamQueue`
(src/shrpx_downstream_queue.cc): per-destination admission control for a
reverse proxy.  Handles (`Downstream` objects) are identified by natural
numbers.  The intrusive `BlockedLink` list of a `HostEntry` is embedded as a
`List (Option Nat)`: the element `some h` is a link whose `downstream` pointer
refers to handle `h`, and `none` is a stale link whose `downstream` pointer
was nulled out-of-band.  `size_t` counters are embedded as `Nat` with explicit
reduction modulo `2 ^ 64` where the source increments or decrements them.
-/

/-- Dispatch states of a handle, mirroring the `Downstream::DISPATCH_*`
enumeration used by shrpx_downstream_queue.cc (the enumeration itself is
declared in shrpx_downstream.h; its five values and their role are also
described by the spec's data model). -/
inductive DispatchState where
  | DISPATCH_NONE
  | DISPATCH_PENDING
  | DISPATCH_ACTIVE
  | DISPATCH_BLOCKED
  | DISPATCH_FAILURE
deriving DecidableEq, Repr

open DispatchState

/-- Modelled from the spec: the parts of a `Downstream` handle that the queue
reads and writes (shrpx_downstream.h is not part of the given sources).  It
carries the request authority used as destination key, the dispatch-state
field, and the back-reference slot for a blocked-list link (`blocked_link`
is `true` exactly when the C++ `blocked_link_` pointer is non-null). -/
structure Downstream where
  request_http2_authority : String
  dispatch_state : DispatchState
  blocked_link : Bool
deriving DecidableEq, Repr

/-- `DownstreamQueue::HostEntry`: active-connection counter and the FIFO
blocked list of link nodes for one destination key. -/
structure HostEntry where
  num_active : Nat
  blocked : List (Option Nat)
deriving DecidableEq, Repr

/-- The queue state: configuration, the global registry `downstreams_`
(an intrusive list of handle ids in submission order) and the destination
map `host_entries_` (an association list keyed by host string). -/
structure DownstreamQueue where
  conn_max_per_host_ : Nat
  unified_host_ : Bool
  downstreams_ : List Nat
  host_entries_ : List (String × HostEntry)
deriving DecidableEq, Repr

/-- A world: the queue together with the states of all handle objects.
`hs` is total; ids that were never submitted map to a default object in
state `DISPATCH_NONE`. -/
structure World where
  q : DownstreamQueue
  hs : Nat → Downstream

/-- `std::numeric_limits<size_t>::max()` for the 64-bit platforms shrpx
targets. -/
def size_t_max : Nat := 2 ^ 64 - 1

/-- `size_t` increment `++n` with wrap-around. -/
def szAdd1 (n : Nat) : Nat := (n + 1) % 2 ^ 64

/-- `size_t` decrement `--n` with wrap-around (0 wraps to `size_t_max`). -/
def szSub1 (n : Nat) : Nat := (n + (2 ^ 64 - 1)) % 2 ^ 64

/-- Lookup in the destination map (`host_entries_.find(host)`). -/
def alist_find : List (String × HostEntry) → String → Option HostEntry
  | [], _ => none
  | (k', v) :: rest, k => if k' = k then some v else alist_find rest k

/-- Store an entry under a key: overwrite the first binding of the key, or
append a new binding when the key is absent (the effect of
`find_host_entry`'s emplace followed by in-place mutation). -/
def alist_set : List (String × HostEntry) → String → HostEntry → List (String × HostEntry)
  | [], k, v => [(k, v)]
  | (k', v') :: rest, k, v =>
    if k' = k then (k, v) :: rest else (k', v') :: alist_set rest k v

/-- `host_entries_.erase(host)`: remove the first binding of the key. -/
def alist_erase : List (String × HostEntry) → String → List (String × HostEntry)
  | [], _ => []
  | (k', v') :: rest, k => if k' = k then rest else (k', v') :: alist_erase rest k

/-- `DownstreamQueue::make_host_key(const std::string &)`: the unified-host
sentinel is the empty string. -/
def make_host_key (q : DownstreamQueue) (host : String) : String :=
  if q.unified_host_ then "" else host

/-- `DownstreamQueue::make_host_key(Downstream *)`. -/
def make_host_keyD (q : DownstreamQueue) (d : Downstream) : String :=
  make_host_key q d.request_http2_authority

/-- The destination key of handle `hid` in world `w`. -/
def key_of (w : World) (hid : Nat) : String := make_host_keyD w.q (w.hs hid)

/-- The empty host entry produced by `HostEntry::HostEntry()`. -/
def empty_entry : HostEntry := { num_active := 0, blocked := [] }

/-- The `DownstreamQueue` constructor: a cap of 0 means unbounded, stored as
`size_t_max`. -/
def DownstreamQueue.init (conn_max_per_host : Nat) (unified_host : Bool) : DownstreamQueue :=
  { conn_max_per_host_ := if conn_max_per_host = 0 then size_t_max else conn_max_per_host,
    unified_host_ := unified_host,
    downstreams_ := [],
    host_entries_ := [] }

/-- A fresh world holding a newly constructed queue and no handle objects. -/
def World.init (conn_max_per_host : Nat) (unified_host : Bool) : World :=
  { q := DownstreamQueue.init conn_max_per_host unified_host,
    hs := fun _ => { request_http2_authority := "",
                     dispatch_state := DISPATCH_NONE,
                     blocked_link := false } }

/-- `DownstreamQueue::add_pending`: the caller constructs a fresh handle
(authority `auth`, no blocked link) and hands it over; the queue sets its
state to `DISPATCH_PENDING` and appends it to the registry. -/
def add_pending (w : World) (hid : Nat) (auth : String) : World :=
  { q := { w.q with downstreams_ := w.q.downstreams_ ++ [hid] },
    hs := fun i => if i = hid then
        { request_http2_authority := auth,
          dispatch_state := DISPATCH_PENDING,
          blocked_link := false }
      else w.hs i }

/-- `DownstreamQueue::mark_failure`: set the state to `DISPATCH_FAILURE`. -/
def mark_failure (w : World) (hid : Nat) : World :=
  { w with hs := fun i => if i = hid then
        { w.hs hid with dispatch_state := DISPATCH_FAILURE }
      else w.hs i }

/-- `DownstreamQueue::mark_active`: fetch-or-create the handle's host entry,
increment its counter, set the state to `DISPATCH_ACTIVE`.  No cap check is
performed here. -/
def mark_active (w : World) (hid : Nat) : World :=
  let host := make_host_keyD w.q (w.hs hid)
  let ent := (alist_find w.q.host_entries_ host).getD empty_entry
  let m := alist_set w.q.host_entries_ host { ent with num_active := szAdd1 ent.num_active }
  { q := { w.q with host_entries_ := m },
    hs := fun i => if i = hid then
        { w.hs hid with dispatch_state := DISPATCH_ACTIVE }
      else w.hs i }

/-- `DownstreamQueue::mark_blocked`: fetch-or-create the host entry, set the
state to `DISPATCH_BLOCKED`, allocate a `BlockedLink` attached to the handle
and append it to the entry's FIFO list. -/
def mark_blocked (w : World) (hid : Nat) : World :=
  let host := make_host_keyD w.q (w.hs hid)
  let ent := (alist_find w.q.host_entries_ host).getD empty_entry
  let m := alist_set w.q.host_entries_ host { ent with blocked := ent.blocked ++ [some hid] }
  { q := { w.q with host_entries_ := m },
    hs := fun i => if i = hid then
        { w.hs hid with dispatch_state := DISPATCH_BLOCKED, blocked_link := true }
      else w.hs i }

/-- `DownstreamQueue::can_activate`: a const query; true when no entry exists
for the destination key, otherwise `num_active < conn_max_per_host_`. -/
def can_activate (q : DownstreamQueue) (host : String) : Bool :=
  match alist_find q.host_entries_ (make_host_key q host) with
  | none => true
  | some ent => decide (ent.num_active < q.conn_max_per_host_)

/-- The body of `remove_host_entry_if_empty`: erase the entry when both the
blocked list and the counter are empty; report whether it was erased. -/
def remove_host_entry_if_empty (ent : HostEntry) (m : List (String × HostEntry))
    (host : String) : Bool × List (String × HostEntry) :=
  if ent.blocked = [] ∧ ent.num_active = 0 then (true, alist_erase m host) else (false, m)

/-- The scan loop of `remove_and_get_blocked` (lines 146-159): walk the
blocked list from the front, physically removing stale links (`none`); on the
first live link return its handle together with the list that remains after
all removals; exhaustion returns `none` with the emptied list. -/
def scan_blocked : List (Option Nat) → Option Nat × List (Option Nat)
  | [] => (none, [])
  | none :: rest => scan_blocked rest
  | some hid :: rest => (some hid, rest)

/-- The entry `find_host_entry` yields for the released handle's key (the
default is taken when the entry is absent, in which case `find_host_entry`
would freshly create it). -/
def rgb_ent0 (w : World) (hid : Nat) : HostEntry :=
  (alist_find w.q.host_entries_ (key_of w hid)).getD empty_entry

/-- That entry after the `--ent.num_active` decrement (line 136). -/
def rgb_ent1 (w : World) (hid : Nat) : HostEntry :=
  { num_active := szSub1 (rgb_ent0 w hid).num_active,
    blocked := (rgb_ent0 w hid).blocked }

/-- The destination map right after the decrement was written back. -/
def rgb_m1 (w : World) (hid : Nat) : List (String × HostEntry) :=
  alist_set w.q.host_entries_ (key_of w hid) (rgb_ent1 w hid)

/-- The `DISPATCH_ACTIVE` path of `remove_and_get_blocked` (lines 132-160):
remove the handle from the registry, decrement its destination's counter,
garbage-collect an empty entry, stop when the destination is still at or
above the cap, otherwise scan the blocked list (dropping stale links) and
promote the first live waiter, detaching its link and garbage-collecting
again. -/
def release_active (w : World) (hid : Nat) : World × Option Nat :=
  let host := key_of w hid
  let ent1 := rgb_ent1 w hid
  let m1 := rgb_m1 w hid
  let q0 : DownstreamQueue := { w.q with downstreams_ := w.q.downstreams_.erase hid }
  match remove_host_entry_if_empty ent1 m1 host with
  | (true, m2) => ({ w with q := { q0 with host_entries_ := m2 } }, none)
  | (false, _) =>
    if w.q.conn_max_per_host_ ≤ ent1.num_active then
      ({ w with q := { q0 with host_entries_ := m1 } }, none)
    else
      match scan_blocked ent1.blocked with
      | (some wid, rest) =>
        let ent2 : HostEntry := { ent1 with blocked := rest }
        let m2 := alist_set w.q.host_entries_ host ent2
        let m3 := (remove_host_entry_if_empty ent2 m2 host).2
        ({ q := { q0 with host_entries_ := m3 },
           hs := fun i => if i = wid then { w.hs wid with blocked_link := false }
             else w.hs i }, some wid)
      | (none, rest) =>
        let m4 := alist_set w.q.host_entries_ host { ent1 with blocked := rest }
        ({ w with q := { q0 with host_entries_ := m4 } }, none)

/-- `DownstreamQueue::remove_and_get_blocked`: release a handle; a handle
that never became `DISPATCH_ACTIVE` is only removed from the registry
(lines 126-130), an active one goes through `release_active`.  Returns the
new world and the promoted handle, if any.  (The C++ also destroys the
released object; handle states of released ids are never consulted again.) -/
def remove_and_get_blocked (w : World) (hid : Nat) : World × Option Nat :=
  if (w.hs hid).dispatch_state ≠ DISPATCH_ACTIVE then
    ({ w with q := { w.q with downstreams_ := w.q.downstreams_.erase hid } }, none)
  else
    release_active w hid

/-- The operations a caller can perform on the queue, for reasoning about
whole call sequences. -/
inductive Op where
  | submit (hid : Nat) (auth : String)
  | failure_of (hid : Nat)
  | activate (hid : Nat)
  | block (hid : Nat)
  | release (hid : Nat)
deriving DecidableEq, Repr

/-- The handle id an operation acts on. -/
def Op.hid : Op → Nat
  | .submit h _ => h
  | .failure_of h => h
  | .activate h => h
  | .block h => h
  | .release h => h

/-- One queue call; the second component is the waiter returned by
`remove_and_get_blocked` (and `none` for every other call). -/
def step (w : World) : Op → World × Option Nat
  | .submit hid auth => (add_pending w hid auth, none)
  | .failure_of hid => (mark_failure w hid, none)
  | .activate hid => (mark_active w hid, none)
  | .block hid => (mark_blocked w hid, none)
  | .release hid => remove_and_get_blocked w hid

/-- Run a sequence of calls. -/
def run (w : World) : List Op → World
  | [] => w
  | op :: rest => run (step w op).1 rest

/-- Object-lifetime discipline of the C++ API, which hands each `Downstream`
to the queue by `unique_ptr` and destroys it on release: an id used for
`submit` must be fresh (a submit hands over a newly constructed object), and
no call may mention an id after it has been released (the object is gone).
`seen` collects every id mentioned so far, `dead` the released ones. -/
def wf_ops (seen dead : List Nat) : List Op → Bool
  | [] => true
  | .submit hid _ :: rest => decide (hid ∉ seen) && wf_ops (hid :: seen) dead rest
  | .release hid :: rest => decide (hid ∉ dead) && wf_ops (hid :: seen) (hid :: dead) rest
  | op :: rest => decide (op.hid ∉ dead) && wf_ops (op.hid :: seen) dead rest

/-- The `can_activate` gating contract of the spec: every `mark_active` is
issued either while `can_activate` returns true for the handle's destination,
or on the handle that the immediately preceding `remove_and_get_blocked`
returned.  `promoted` is that preceding call's return value. -/
def gated_ops (w : World) (promoted : Option Nat) : List Op → Bool
  | [] => true
  | op :: rest =>
    (match op with
     | .activate hid =>
       can_activate w.q (w.hs hid).request_http2_authority || decide (promoted = some hid)
     | _ => true) &&
    gated_ops (step w op).1 (step w op).2 rest

/-- The dispatch-state machine of the spec (section 3): submits are fresh;
`mark_active` needs a pending handle or the waiter just promoted;
`mark_blocked` and `mark_failure` need a pending handle; release needs an
owned handle that is pending, active or failed (blocked handles are promoted,
never released directly). -/
def valid_ops (w : World) (promoted : Option Nat) (seen : List Nat) : List Op → Bool
  | [] => true
  | op :: rest =>
    (match op with
     | .submit hid _ => decide (hid ∉ seen)
     | .activate hid =>
       decide (hid ∈ w.q.downstreams_) &&
         (decide ((w.hs hid).dispatch_state = DISPATCH_PENDING) ||
          decide (promoted = some hid))
     | .block hid =>
       decide (hid ∈ w.q.downstreams_) &&
         decide ((w.hs hid).dispatch_state = DISPATCH_PENDING)
     | .failure_of hid =>
       decide (hid ∈ w.q.downstreams_) &&
         decide ((w.hs hid).dispatch_state = DISPATCH_PENDING)
     | .release hid =>
       decide (hid ∈ w.q.downstreams_) &&
         (decide ((w.hs hid).dispatch_state = DISPATCH_PENDING) ||
          decide ((w.hs hid).dispatch_state = DISPATCH_ACTIVE) ||
          decide ((w.hs hid).dispatch_state = DISPATCH_FAILURE))) &&
    valid_ops (step w op).1 (step w op).2
      (match op with | .submit hid _ => hid :: seen | o => o.hid :: seen) rest

/-- The number of active connections recorded for key `k` (0 when no entry
exists). -/
def ent_num (w : World) (k : String) : Nat :=
  ((alist_find w.q.host_entries_ k).getD empty_entry).num_active

/-- The host string used in the concrete scenarios. -/
def hostx : String := "x"

/-- A second host string. -/
def hosty : String := "y"

/-! ## Basic lemmas about the embedded containers and counters -/

theorem alist_find_cons (pk : String) (pv : HostEntry) (rest : List (String × HostEntry))
    (k : String) :
    alist_find ((pk, pv) :: rest) k = if pk = k then some pv else alist_find rest k := rfl

theorem alist_set_cons (pk : String) (pv : HostEntry) (rest : List (String × HostEntry))
    (k : String) (v : HostEntry) :
    alist_set ((pk, pv) :: rest) k v =
      if pk = k then (k, v) :: rest else (pk, pv) :: alist_set rest k v := rfl

theorem alist_erase_cons (pk : String) (pv : HostEntry) (rest : List (String × HostEntry))
    (k : String) :
    alist_erase ((pk, pv) :: rest) k = if pk = k then rest else (pk, pv) :: alist_erase rest k :=
  rfl

theorem alist_find_set_self (m : List (String × HostEntry)) (k : String) (v : HostEntry) :
    alist_find (alist_set m k v) k = some v := by
  induction m with
  | nil => simp [alist_set, alist_find]
  | cons p rest ih =>
    by_cases h : p.1 = k
    · simp [alist_set, h, alist_find]
    · simp [alist_set, h, alist_find, ih]

theorem alist_find_set_ne (m : List (String × HostEntry)) (k k' : String) (v : HostEntry)
    (h : k' ≠ k) : alist_find (alist_set m k v) k' = alist_find m k' := by
  induction m with
  | nil =>
    simp only [alist_set, alist_find]
    rw [if_neg (Ne.symm h)]
  | cons p rest ih =>
    rcases p with ⟨pk, pv⟩
    by_cases hk : pk = k
    · subst hk
      simp only [alist_set, if_pos rfl, alist_find]
      rw [if_neg (Ne.symm h), if_neg (Ne.symm h)]
    · by_cases hk' : pk = k'
      · simp only [alist_set, if_neg hk, alist_find, if_pos hk']
      · simp only [alist_set, if_neg hk, alist_find, if_neg hk']
        exact ih

theorem alist_find_mem_keys (m : List (String × HostEntry)) (k : String) (e : HostEntry)
    (h : alist_find m k = some e) : k ∈ m.map Prod.fst := by
  induction m with
  | nil => simp [alist_find] at h
  | cons p rest ih =>
    by_cases hk : p.1 = k
    · simp [hk]
    · simp only [alist_find, if_neg hk] at h
      simp [ih h]

theorem alist_find_erase_ne (m : List (String × HostEntry)) (k k' : String)
    (h : k' ≠ k) : alist_find (alist_erase m k) k' = alist_find m k' := by
  induction m with
  | nil => simp [alist_erase, alist_find]
  | cons p rest ih =>
    rcases p with ⟨pk, pv⟩
    by_cases hk : pk = k
    · subst hk
      rw [alist_erase_cons, if_pos rfl, alist_find_cons,
        if_neg (fun hh : pk = k' => h hh.symm)]
    · rw [alist_erase_cons, if_neg hk, alist_find_cons, alist_find_cons, ih]

theorem alist_find_erase_self (m : List (String × HostEntry)) (k : String)
    (h : (m.map Prod.fst).Nodup) : alist_find (alist_erase m k) k = none := by
  induction m with
  | nil => simp [alist_erase, alist_find]
  | cons p rest ih =>
    simp only [List.map_cons, List.nodup_cons] at h
    by_cases hk : p.1 = k
    · simp only [alist_erase, hk, if_pos rfl]
      cases hfind : alist_find rest k with
      | none => exact hfind
      | some e => exact absurd (hk ▸ alist_find_mem_keys rest k e hfind) h.1
    · simp only [alist_erase, if_neg hk, alist_find, if_neg hk]
      exact ih h.2

theorem alist_keys_set_sub (m : List (String × HostEntry)) (k : String) (v : HostEntry) :
    ∀ k', k' ∈ (alist_set m k v).map Prod.fst → k' = k ∨ k' ∈ m.map Prod.fst := by
  induction m with
  | nil => simp [alist_set]
  | cons p rest ih =>
    rcases p with ⟨pk, pv⟩
    by_cases hk : pk = k
    · rw [alist_set_cons, if_pos hk]
      intro k' hk'
      rw [List.map_cons] at hk'
      rcases List.mem_cons.mp hk' with h1 | h1
      · exact Or.inl h1
      · exact Or.inr (by rw [List.map_cons]; exact List.mem_cons_of_mem _ h1)
    · rw [alist_set_cons, if_neg hk]
      intro k' hk'
      rw [List.map_cons] at hk'
      rcases List.mem_cons.mp hk' with h1 | h1
      · exact Or.inr (by rw [List.map_cons, h1]; exact List.mem_cons_self _ _)
      · rcases ih k' h1 with h2 | h2
        · exact Or.inl h2
        · exact Or.inr (by rw [List.map_cons]; exact List.mem_cons_of_mem _ h2)

theorem alist_nodup_set (m : List (String × HostEntry)) (k : String) (v : HostEntry)
    (h : (m.map Prod.fst).Nodup) : ((alist_set m k v).map Prod.fst).Nodup := by
  induction m with
  | nil => simp [alist_set]
  | cons p rest ih =>
    rcases p with ⟨pk, pv⟩
    simp only [List.map_cons, List.nodup_cons] at h
    by_cases hk : pk = k
    · subst hk
      rw [alist_set_cons, if_pos rfl]
      simp only [List.map_cons, List.nodup_cons]
      exact ⟨h.1, h.2⟩
    · rw [alist_set_cons, if_neg hk]
      simp only [List.map_cons, List.nodup_cons]
      refine ⟨?_, ih h.2⟩
      intro hmem
      rcases alist_keys_set_sub rest k v pk hmem with h1 | h1
      · exact hk h1
      · exact h.1 h1

theorem alist_keys_erase_sub (m : List (String × HostEntry)) (k : String) :
    ∀ k', k' ∈ (alist_erase m k).map Prod.fst → k' ∈ m.map Prod.fst := by
  induction m with
  | nil => simp [alist_erase]
  | cons p rest ih =>
    by_cases hk : p.1 = k
    · simp only [alist_erase, hk, if_pos rfl, List.map_cons, List.mem_cons]
      intro k' hk'
      exact Or.inr hk'
    · simp only [alist_erase, if_neg hk, List.map_cons, List.mem_cons]
      intro k' hk'
      rcases hk' with h1 | h1
      · exact Or.inl h1
      · exact Or.inr (ih k' h1)

theorem alist_nodup_erase (m : List (String × HostEntry)) (k : String)
    (h : (m.map Prod.fst).Nodup) : ((alist_erase m k).map Prod.fst).Nodup := by
  induction m with
  | nil => simp [alist_erase]
  | cons p rest ih =>
    simp only [List.map_cons, List.nodup_cons] at h
    by_cases hk : p.1 = k
    · simpa [alist_erase, hk] using h.2
    · simp only [alist_erase, if_neg hk, List.map_cons, List.nodup_cons]
      exact ⟨fun hmem => h.1 (alist_keys_erase_sub rest k p.1 hmem), ih h.2⟩

theorem alist_eq_nil (m : List (String × HostEntry))
    (h : ∀ k e, alist_find m k = some e → False) : m = [] := by
  cases m with
  | nil => rfl
  | cons p rest => exact absurd (by simp [alist_find] : alist_find (p :: rest) p.1 = some p.2) (fun hh => h p.1 p.2 hh)

theorem scan_blocked_replicate (n : Nat) (v : Nat) (rest : List (Option Nat)) :
    scan_blocked (List.replicate n none ++ some v :: rest) = (some v, rest) := by
  induction n with
  | zero => simp [scan_blocked]
  | succ k ih => simpa [List.replicate_succ, scan_blocked] using ih

theorem scan_blocked_none_eq (l : List (Option Nat)) (rest : List (Option Nat))
    (h : scan_blocked l = (none, rest)) : rest = [] ∧ ∀ x ∈ l, x = none := by
  induction l with
  | nil =>
    simp only [scan_blocked] at h
    cases h
    exact ⟨rfl, by simp⟩
  | cons x r ih =>
    cases x with
    | none =>
      have hr := ih (by simpa [scan_blocked] using h)
      refine ⟨hr.1, ?_⟩
      intro y hy
      rcases List.mem_cons.mp hy with h1 | h1
      · exact h1
      · exact hr.2 y h1
    | some v => simp [scan_blocked] at h

theorem scan_blocked_some_decomp (l : List (Option Nat)) (v : Nat) (rest : List (Option Nat))
    (h : scan_blocked l = (some v, rest)) :
    ∃ pre, l = pre ++ some v :: rest ∧ ∀ x ∈ pre, x = none := by
  induction l with
  | nil => simp [scan_blocked] at h
  | cons x r ih =>
    cases x with
    | none =>
      rcases ih (by simpa [scan_blocked] using h) with ⟨pre, hpre, hall⟩
      refine ⟨none :: pre, by simp [hpre], ?_⟩
      intro y hy
      rcases List.mem_cons.mp hy with h1 | h1
      · exact h1
      · exact hall y h1
    | some v' =>
      simp only [scan_blocked, Prod.mk.injEq, Option.some.injEq] at h
      exact ⟨[], by simp [h.1, h.2], by simp⟩

theorem scan_blocked_some_mem (l : List (Option Nat)) (v : Nat) (rest : List (Option Nat))
    (h : scan_blocked l = (some v, rest)) : some v ∈ l := by
  rcases scan_blocked_some_decomp l v rest h with ⟨pre, hpre, _⟩
  simp [hpre]

theorem scan_blocked_some_sub (l : List (Option Nat)) (v : Nat) (rest : List (Option Nat))
    (h : scan_blocked l = (some v, rest)) : ∀ x ∈ rest, x ∈ l := by
  rcases scan_blocked_some_decomp l v rest h with ⟨pre, hpre, _⟩
  intro x hx
  simp [hpre, hx]

theorem pow64_eq : (2 : Nat) ^ 64 = 18446744073709551616 := by norm_num

theorem size_t_max_eq : size_t_max = 18446744073709551615 := by
  unfold size_t_max
  rw [pow64_eq]

theorem szAdd1_eq (n : Nat) (h : n < size_t_max) : szAdd1 n = n + 1 := by
  unfold szAdd1
  rw [pow64_eq]
  rw [size_t_max_eq] at h
  omega

theorem szSub1_eq (n : Nat) (h1 : 1 ≤ n) (h2 : n ≤ size_t_max) : szSub1 n = n - 1 := by
  unfold szSub1
  rw [pow64_eq]
  rw [size_t_max_eq] at h2
  omega

/-! ## Branch characterizations of `remove_and_get_blocked` -/

theorem rgb_not_active (w : World) (hid : Nat)
    (h : (w.hs hid).dispatch_state ≠ DISPATCH_ACTIVE) :
    remove_and_get_blocked w hid =
      ({ w with q := { w.q with downstreams_ := w.q.downstreams_.erase hid } }, none) := by
  simp only [remove_and_get_blocked]
  rw [if_pos h]

theorem rgb_eq_erase (w : World) (hid : Nat)
    (hact : (w.hs hid).dispatch_state = DISPATCH_ACTIVE)
    (hcond : (rgb_ent1 w hid).blocked = [] ∧ (rgb_ent1 w hid).num_active = 0) :
    remove_and_get_blocked w hid =
      ({ w with q := { w.q with
           downstreams_ := w.q.downstreams_.erase hid,
           host_entries_ := alist_erase (rgb_m1 w hid) (key_of w hid) } }, none) := by
  simp only [remove_and_get_blocked]
  rw [if_neg (fun hc => hc hact)]
  simp only [release_active, remove_host_entry_if_empty]
  rw [if_pos hcond]

theorem rgb_eq_capfull (w : World) (hid : Nat)
    (hact : (w.hs hid).dispatch_state = DISPATCH_ACTIVE)
    (hcond : ¬((rgb_ent1 w hid).blocked = [] ∧ (rgb_ent1 w hid).num_active = 0))
    (hcap : w.q.conn_max_per_host_ ≤ (rgb_ent1 w hid).num_active) :
    remove_and_get_blocked w hid =
      ({ w with q := { w.q with
           downstreams_ := w.q.downstreams_.erase hid,
           host_entries_ := rgb_m1 w hid } }, none) := by
  simp only [remove_and_get_blocked]
  rw [if_neg (fun hc => hc hact)]
  simp only [release_active, remove_host_entry_if_empty]
  rw [if_neg hcond, if_pos hcap]

theorem rgb_eq_promote (w : World) (hid : Nat) (wid : Nat) (rest : List (Option Nat))
    (hact : (w.hs hid).dispatch_state = DISPATCH_ACTIVE)
    (hcond : ¬((rgb_ent1 w hid).blocked = [] ∧ (rgb_ent1 w hid).num_active = 0))
    (hcap : ¬(w.q.conn_max_per_host_ ≤ (rgb_ent1 w hid).num_active))
    (hscan : scan_blocked (rgb_ent1 w hid).blocked = (some wid, rest)) :
    remove_and_get_blocked w hid =
      ({ q := { w.q with
           downstreams_ := w.q.downstreams_.erase hid,
           host_entries_ :=
             (remove_host_entry_if_empty { rgb_ent1 w hid with blocked := rest }
               (alist_set w.q.host_entries_ (key_of w hid)
                 { rgb_ent1 w hid with blocked := rest })
               (key_of w hid)).2 },
         hs := fun i => if i = wid then { w.hs wid with blocked_link := false }
           else w.hs i }, some wid) := by
  simp only [remove_and_get_blocked]
  rw [if_neg (fun hc => hc hact)]
  conv_lhs => rw [release_active]
  rw [show remove_host_entry_if_empty (rgb_ent1 w hid) (rgb_m1 w hid) (key_of w hid) =
    (false, rgb_m1 w hid) from by rw [remove_host_entry_if_empty, if_neg hcond]]
  rw [if_neg hcap, hscan]

theorem rgb_eq_exhaust (w : World) (hid : Nat) (rest : List (Option Nat))
    (hact : (w.hs hid).dispatch_state = DISPATCH_ACTIVE)
    (hcond : ¬((rgb_ent1 w hid).blocked = [] ∧ (rgb_ent1 w hid).num_active = 0))
    (hcap : ¬(w.q.conn_max_per_host_ ≤ (rgb_ent1 w hid).num_active))
    (hscan : scan_blocked (rgb_ent1 w hid).blocked = (none, rest)) :
    remove_and_get_blocked w hid =
      ({ w with q := { w.q with
           downstreams_ := w.q.downstreams_.erase hid,
           host_entries_ :=
             alist_set w.q.host_entries_ (key_of w hid)
               { rgb_ent1 w hid with blocked := rest } } }, none) := by
  simp only [remove_and_get_blocked]
  rw [if_neg (fun hc => hc hact)]
  conv_lhs => rw [release_active]
  rw [show remove_host_entry_if_empty (rgb_ent1 w hid) (rgb_m1 w hid) (key_of w hid) =
    (false, rgb_m1 w hid) from by rw [remove_host_entry_if_empty, if_neg hcond]]
  rw [if_neg hcap, hscan]

/-! ## Concrete worlds used by scenarios, counterexamples and witnesses -/

/-- The spec's concrete scenario, cap 2, non-unified: submit H1, H2, H3 for
host x (ids 1, 2, 3). -/
def c3w3 : World :=
  add_pending (add_pending (add_pending (World.init 2 false) 1 hostx) 2 hostx) 3 hostx

/-- After `mark_active(H1)`. -/
def c3w4 : World := mark_active c3w3 1

/-- After `mark_active(H2)`. -/
def c3w5 : World := mark_active c3w4 2

/-- After `mark_blocked(H3)`. -/
def c3w6 : World := mark_blocked c3w5 3

/-- `release_and_promote(H1)`. -/
def c3r1 : World × Option Nat := remove_and_get_blocked c3w6 1

/-- After `mark_active(H3)`. -/
def c3w7 : World := mark_active c3r1.1 3

/-- `release_and_promote(H2)`. -/
def c3r2 : World × Option Nat := remove_and_get_blocked c3w7 2

/-- `release_and_promote(H3)`. -/
def c3r3 : World × Option Nat := remove_and_get_blocked c3r2.1 3

/-! ## Claim theorems -/

/-- C3: with cap 2 and non-unified keying, after submitting H1, H2, H3 for
host x: `can_activate` is true, true after one activation, false after two;
blocking H3 and releasing H1 promotes H3 with the counter at 1; activating H3
brings it back to 2; releasing H2 promotes nobody and leaves 1; releasing H3
promotes nobody and erases the entry for x. -/
theorem c3_concrete_scenario :
    can_activate c3w3.q hostx = true ∧
    can_activate c3w4.q hostx = true ∧
    can_activate c3w5.q hostx = false ∧
    c3r1.2 = some 3 ∧
    alist_find c3r1.1.q.host_entries_ hostx = some { num_active := 1, blocked := [] } ∧
    alist_find c3w7.q.host_entries_ hostx = some { num_active := 2, blocked := [] } ∧
    c3r2.2 = none ∧
    alist_find c3r2.1.q.host_entries_ hostx = some { num_active := 1, blocked := [] } ∧
    c3r3.2 = none ∧
    alist_find c3r3.1.q.host_entries_ hostx = none := by
  decide

/-- C8: `can_activate` returns true exactly when either no entry exists for
the destination's key or the entry's counter is below the cap.  In the
embedding it is a pure function of the queue, mirroring the `const` C++
method, so it cannot mutate the registry, the destination map, or any
handle. -/
theorem c8_can_activate_query (q : DownstreamQueue) (host : String) :
    can_activate q host = true ↔
      (alist_find q.host_entries_ (make_host_key q host) = none ∨
       ∃ e, alist_find q.host_entries_ (make_host_key q host) = some e ∧
         e.num_active < q.conn_max_per_host_) := by
  unfold can_activate
  cases hfind : alist_find q.host_entries_ (make_host_key q host) with
  | none => simp
  | some e => simp [hfind]

/-- C9: releasing a handle whose dispatch state is not `DISPATCH_ACTIVE`
removes it from the global registry, returns no waiter, and leaves the
destination map and every handle object untouched. -/
theorem c9_release_nonactive_frame (w : World) (hid : Nat)
    (h : (w.hs hid).dispatch_state ≠ DISPATCH_ACTIVE) :
    (remove_and_get_blocked w hid).2 = none ∧
    (remove_and_get_blocked w hid).1.q.host_entries_ = w.q.host_entries_ ∧
    (remove_and_get_blocked w hid).1.q.downstreams_ = w.q.downstreams_.erase hid ∧
    (remove_and_get_blocked w hid).1.hs = w.hs := by
  rw [rgb_not_active w hid h]
  exact ⟨rfl, rfl, rfl, rfl⟩

/-- Witness world for C9: one pending handle. -/
def c9w : World := add_pending (World.init 1 false) 0 hostx

/-- Witness for C9 at a concrete input: handle 0 is pending, releasing it
returns none, erases it from the registry, and leaves the map alone. -/
theorem c9_witness :
    (c9w.hs 0).dispatch_state ≠ DISPATCH_ACTIVE ∧
    ((remove_and_get_blocked c9w 0).2 = none ∧
     (remove_and_get_blocked c9w 0).1.q.host_entries_ = c9w.q.host_entries_ ∧
     (remove_and_get_blocked c9w 0).1.q.downstreams_ = c9w.q.downstreams_.erase 0 ∧
     (remove_and_get_blocked c9w 0).1.hs = c9w.hs) :=
  ⟨by decide, c9_release_nonactive_frame c9w 0 (by decide)⟩

theorem find_rhie_self_empty (ent : HostEntry) (m : List (String × HostEntry)) (k : String)
    (hnodup : (m.map Prod.fst).Nodup) (hc : ent.blocked = [] ∧ ent.num_active = 0) :
    alist_find (remove_host_entry_if_empty ent (alist_set m k ent) k).2 k = none := by
  unfold remove_host_entry_if_empty
  rw [if_pos hc]
  exact alist_find_erase_self _ _ (alist_nodup_set _ _ _ hnodup)

theorem find_rhie_self_keep (ent : HostEntry) (m : List (String × HostEntry)) (k : String)
    (hc : ¬(ent.blocked = [] ∧ ent.num_active = 0)) :
    alist_find (remove_host_entry_if_empty ent (alist_set m k ent) k).2 k = some ent := by
  unfold remove_host_entry_if_empty
  rw [if_neg hc]
  exact alist_find_set_self _ _ _

theorem find_rhie_ne (ent : HostEntry) (m : List (String × HostEntry)) (k k' : String)
    (h : k' ≠ k) :
    alist_find (remove_host_entry_if_empty ent (alist_set m k ent) k).2 k' =
      alist_find m k' := by
  unfold remove_host_entry_if_empty
  by_cases hc : ent.blocked = [] ∧ ent.num_active = 0
  · rw [if_pos hc]
    rw [show ((true, alist_erase (alist_set m k ent) k) :
        Bool × List (String × HostEntry)).2 = alist_erase (alist_set m k ent) k from rfl]
    rw [alist_find_erase_ne _ _ _ h, alist_find_set_ne _ _ _ _ h]
  · rw [if_neg hc]
    exact alist_find_set_ne _ _ _ _ h

theorem c10_promoted_waiter_frame (w : World) (hid v : Nat)
    (hnodup : (w.q.host_entries_.map Prod.fst).Nodup)
    (hres : (remove_and_get_blocked w hid).2 = some v)
    (hblocked : (w.hs v).dispatch_state = DISPATCH_BLOCKED) :
    ((remove_and_get_blocked w hid).1.hs v).dispatch_state = DISPATCH_BLOCKED ∧
    ((remove_and_get_blocked w hid).1.hs v).blocked_link = false ∧
    (∀ i, i ≠ v → (remove_and_get_blocked w hid).1.hs i = w.hs i) ∧
    (v ∈ (remove_and_get_blocked w hid).1.q.downstreams_ ↔ v ∈ w.q.downstreams_) ∧
    (∀ e', alist_find (remove_and_get_blocked w hid).1.q.host_entries_ (key_of w hid) =
        some e' → e'.num_active = (rgb_ent1 w hid).num_active) := by
  have hact : (w.hs hid).dispatch_state = DISPATCH_ACTIVE := by
    by_contra hc
    rw [rgb_not_active w hid hc] at hres
    simp at hres
  have hvne : v ≠ hid := by
    intro hvh
    rw [hvh, hact] at hblocked
    cases hblocked
  by_cases hcond : (rgb_ent1 w hid).blocked = [] ∧ (rgb_ent1 w hid).num_active = 0
  · rw [rgb_eq_erase w hid hact hcond] at hres
    simp at hres
  by_cases hcap : w.q.conn_max_per_host_ ≤ (rgb_ent1 w hid).num_active
  · rw [rgb_eq_capfull w hid hact hcond hcap] at hres
    simp at hres
  rcases hscan : scan_blocked (rgb_ent1 w hid).blocked with ⟨r, rest⟩
  cases r with
  | none =>
    rw [rgb_eq_exhaust w hid rest hact hcond hcap hscan] at hres
    simp at hres
  | some wid =>
    have heq := rgb_eq_promote w hid wid rest hact hcond hcap hscan
    rw [heq] at hres
    have hv : wid = v := by simpa using hres
    subst hv
    rw [heq]
    refine ⟨by simp [hblocked], by simp, ?_, ?_, ?_⟩
    · intro i hi
      simp [if_neg hi]
    · show wid ∈ w.q.downstreams_.erase hid ↔ wid ∈ w.q.downstreams_
      exact List.mem_erase_of_ne hvne
    · show ∀ e', alist_find (remove_host_entry_if_empty
          { rgb_ent1 w hid with blocked := rest }
          (alist_set w.q.host_entries_ (key_of w hid)
            { rgb_ent1 w hid with blocked := rest })
          (key_of w hid)).2 (key_of w hid) = some e' →
          e'.num_active = (rgb_ent1 w hid).num_active
      intro e' he2
      by_cases hc2 : ({ rgb_ent1 w hid with blocked := rest } : HostEntry).blocked = [] ∧
          ({ rgb_ent1 w hid with blocked := rest } : HostEntry).num_active = 0
      · exact Option.noConfusion ((find_rhie_self_empty _ _ _ hnodup hc2).symm.trans he2)
      · have he3 := (find_rhie_self_keep _ _ _ hc2).symm.trans he2
        injection he3 with h4
        cases h4
        rfl

/-- Witness world for C10: cap 1, handle 1 active on x, handle 2 blocked. -/
def c10w : World :=
  mark_blocked (add_pending (mark_active (add_pending (World.init 1 false) 1 hostx) 1) 2 hostx) 2

/-- Witness for C10 at a concrete input: releasing handle 1 returns waiter 2,
which is still blocked, has its link detached, and stays in the registry; the
counter stays at the decremented value 0 until `mark_active`. -/
theorem c10_witness :
    (c10w.q.host_entries_.map Prod.fst).Nodup ∧
    (remove_and_get_blocked c10w 1).2 = some 2 ∧
    (c10w.hs 2).dispatch_state = DISPATCH_BLOCKED ∧
    (((remove_and_get_blocked c10w 1).1.hs 2).dispatch_state = DISPATCH_BLOCKED ∧
     ((remove_and_get_blocked c10w 1).1.hs 2).blocked_link = false ∧
     (∀ i, i ≠ 2 → (remove_and_get_blocked c10w 1).1.hs i = c10w.hs i) ∧
     (2 ∈ (remove_and_get_blocked c10w 1).1.q.downstreams_ ↔ 2 ∈ c10w.q.downstreams_) ∧
     (∀ e', alist_find (remove_and_get_blocked c10w 1).1.q.host_entries_ (key_of c10w 1) =
        some e' → e'.num_active = (rgb_ent1 c10w 1).num_active)) :=
  ⟨by decide, by decide, by decide,
   c10_promoted_waiter_frame c10w 1 2 (by decide) (by decide) (by decide)⟩

/-- C5: when an ACTIVE handle for a destination whose blocked list starts
with one or more stale links followed by a live waiter is released with
capacity freed, the stale links are physically removed, the counter changes
only by the release's own decrement, and the first live waiter is returned.
Afterwards the entry holds exactly the remaining links (or is erased when it
became empty). -/
theorem c5_stale_links_skipped (w : World) (hid v n : Nat) (rest : List (Option Nat))
    (e : HostEntry)
    (hnodup : (w.q.host_entries_.map Prod.fst).Nodup)
    (hact : (w.hs hid).dispatch_state = DISPATCH_ACTIVE)
    (hfind : alist_find w.q.host_entries_ (key_of w hid) = some e)
    (hblocked : e.blocked = List.replicate n none ++ some v :: rest)
    (hn : 1 ≤ n)
    (hnum : 1 ≤ e.num_active) (hbound : e.num_active ≤ size_t_max)
    (hcap : e.num_active - 1 < w.q.conn_max_per_host_) :
    (remove_and_get_blocked w hid).2 = some v ∧
    ((alist_find (remove_and_get_blocked w hid).1.q.host_entries_ (key_of w hid) = none ∧
        e.num_active - 1 = 0 ∧ rest = []) ∨
     alist_find (remove_and_get_blocked w hid).1.q.host_entries_ (key_of w hid) =
       some { num_active := e.num_active - 1, blocked := rest }) := by
  have he0 : rgb_ent0 w hid = e := by
    unfold rgb_ent0
    rw [hfind]
    rfl
  have he1 : rgb_ent1 w hid = { num_active := e.num_active - 1, blocked := e.blocked } := by
    unfold rgb_ent1
    rw [he0, szSub1_eq e.num_active hnum hbound]
  have hbl : (rgb_ent1 w hid).blocked = List.replicate n none ++ some v :: rest := by
    rw [he1]
    exact hblocked
  have hscan : scan_blocked (rgb_ent1 w hid).blocked = (some v, rest) := by
    rw [hbl]
    exact scan_blocked_replicate n v rest
  have hcond : ¬((rgb_ent1 w hid).blocked = [] ∧ (rgb_ent1 w hid).num_active = 0) := by
    intro hcc
    have h0 := hbl.symm.trans hcc.1
    simp at h0
  have hcap' : ¬(w.q.conn_max_per_host_ ≤ (rgb_ent1 w hid).num_active) := by
    rw [he1]
    exact Nat.not_le.mpr hcap
  have heq := rgb_eq_promote w hid v rest hact hcond hcap' hscan
  constructor
  · rw [heq]
  · rw [heq]
    by_cases hc2 : ({ rgb_ent1 w hid with blocked := rest } : HostEntry).blocked = [] ∧
        ({ rgb_ent1 w hid with blocked := rest } : HostEntry).num_active = 0
    · left
      refine ⟨?_, ?_, ?_⟩
      · exact find_rhie_self_empty _ _ _ hnodup hc2
      · have h5 := hc2.2
        rw [he1] at h5
        exact h5
      · exact hc2.1
    · right
      have hfk := find_rhie_self_keep { rgb_ent1 w hid with blocked := rest }
        w.q.host_entries_ (key_of w hid) hc2
      exact hfk.trans (by rw [he1])

/-- Witness world for C5: cap 2, handle 1 active on x, one stale link in
front of live waiter 2. -/
def c5w : World :=
  { q := { conn_max_per_host_ := 2, unified_host_ := false, downstreams_ := [1, 2],
           host_entries_ := [(hostx, { num_active := 1, blocked := [none, some 2] })] },
    hs := fun i =>
      if i = 1 then { request_http2_authority := hostx,
                      dispatch_state := DISPATCH_ACTIVE, blocked_link := false }
      else if i = 2 then { request_http2_authority := hostx,
                           dispatch_state := DISPATCH_BLOCKED, blocked_link := true }
      else { request_http2_authority := "",
             dispatch_state := DISPATCH_NONE, blocked_link := false } }

/-- Witness for C5 at a concrete input: releasing handle 1 skips the stale
link and promotes waiter 2; the entry becomes empty and is erased. -/
theorem c5_witness :
    (c5w.q.host_entries_.map Prod.fst).Nodup ∧
    (c5w.hs 1).dispatch_state = DISPATCH_ACTIVE ∧
    alist_find c5w.q.host_entries_ (key_of c5w 1) =
      some { num_active := 1, blocked := [none, some 2] } ∧
    ([none, some 2] = List.replicate 1 none ++ some 2 :: []) ∧
    ((remove_and_get_blocked c5w 1).2 = some 2 ∧
     ((alist_find (remove_and_get_blocked c5w 1).1.q.host_entries_ (key_of c5w 1) = none ∧
         1 - 1 = 0 ∧ ([] : List (Option Nat)) = []) ∨
      alist_find (remove_and_get_blocked c5w 1).1.q.host_entries_ (key_of c5w 1) =
        some { num_active := 1 - 1, blocked := [] })) :=
  ⟨by decide, by decide, by decide, by decide,
   c5_stale_links_skipped c5w 1 2 1 [] { num_active := 1, blocked := [none, some 2] }
     (by decide) (by decide) (by decide) (by decide) (by decide) (by decide) (by decide)
     (by decide)⟩

/-- Counterexample world for C6: two consecutive stale links in front of live
waiters 2 and 3; handle 1 is active on x, cap 3. -/
def c6w : World :=
  { q := { conn_max_per_host_ := 3, unified_host_ := false, downstreams_ := [1, 2, 3],
           host_entries_ := [(hostx, { num_active := 1,
                                       blocked := [none, none, some 2, some 3] })] },
    hs := fun i =>
      if i = 1 then { request_http2_authority := hostx,
                      dispatch_state := DISPATCH_ACTIVE, blocked_link := false }
      else if i = 2 ∨ i = 3 then { request_http2_authority := hostx,
                                   dispatch_state := DISPATCH_BLOCKED, blocked_link := true }
      else { request_http2_authority := "",
             dispatch_state := DISPATCH_NONE, blocked_link := false } }

/-- Counterexample for C6: the blocked list of x holds two stale links before
the call; one `release_and_promote` call removes both of them (the count of
stale links drops from 2 to 0), refuting "at most one stale link removed per
call". -/
theorem c6_counterexample :
    ((alist_find c6w.q.host_entries_ hostx).getD empty_entry).blocked.count none = 2 ∧
    (remove_and_get_blocked c6w 1).2 = some 2 ∧
    alist_find (remove_and_get_blocked c6w 1).1.q.host_entries_ hostx =
      some { num_active := 0, blocked := [some 3] } ∧
    ((alist_find (remove_and_get_blocked c6w 1).1.q.host_entries_ hostx).getD
      empty_entry).blocked.count none = 0 := by
  decide

/-- C6 amended: one `release_and_promote` call removes every leading stale
link (not at most one): whatever remains of the blocked list afterwards is
exactly the part after the promoted waiter. -/
theorem c6_amended_all_leading_stale_removed (w : World) (hid v n : Nat)
    (rest : List (Option Nat)) (e : HostEntry)
    (hnodup : (w.q.host_entries_.map Prod.fst).Nodup)
    (hact : (w.hs hid).dispatch_state = DISPATCH_ACTIVE)
    (hfind : alist_find w.q.host_entries_ (key_of w hid) = some e)
    (hblocked : e.blocked = List.replicate n none ++ some v :: rest)
    (hnum : 1 ≤ e.num_active) (hbound : e.num_active ≤ size_t_max)
    (hcap : e.num_active - 1 < w.q.conn_max_per_host_) :
    (remove_and_get_blocked w hid).2 = some v ∧
    (∀ e', alist_find (remove_and_get_blocked w hid).1.q.host_entries_ (key_of w hid) =
       some e' → e'.blocked = rest) := by
  have he0 : rgb_ent0 w hid = e := by
    unfold rgb_ent0
    rw [hfind]
    rfl
  have he1 : rgb_ent1 w hid = { num_active := e.num_active - 1, blocked := e.blocked } := by
    unfold rgb_ent1
    rw [he0, szSub1_eq e.num_active hnum hbound]
  have hbl : (rgb_ent1 w hid).blocked = List.replicate n none ++ some v :: rest := by
    rw [he1]
    exact hblocked
  have hscan : scan_blocked (rgb_ent1 w hid).blocked = (some v, rest) := by
    rw [hbl]
    exact scan_blocked_replicate n v rest
  have hcond : ¬((rgb_ent1 w hid).blocked = [] ∧ (rgb_ent1 w hid).num_active = 0) := by
    intro hcc
    have h0 := hbl.symm.trans hcc.1
    simp at h0
  have hcap' : ¬(w.q.conn_max_per_host_ ≤ (rgb_ent1 w hid).num_active) := by
    rw [he1]
    exact Nat.not_le.mpr hcap
  have heq := rgb_eq_promote w hid v rest hact hcond hcap' hscan
  constructor
  · rw [heq]
  · rw [heq]
    show ∀ e', alist_find (remove_host_entry_if_empty
        { rgb_ent1 w hid with blocked := rest }
        (alist_set w.q.host_entries_ (key_of w hid)
          { rgb_ent1 w hid with blocked := rest })
        (key_of w hid)).2 (key_of w hid) = some e' → e'.blocked = rest
    intro e' he'
    by_cases hc2 : ({ rgb_ent1 w hid with blocked := rest } : HostEntry).blocked = [] ∧
        ({ rgb_ent1 w hid with blocked := rest } : HostEntry).num_active = 0
    · exact Option.noConfusion ((find_rhie_self_empty _ _ _ hnodup hc2).symm.trans he')
    · have h4 := Option.some.inj ((find_rhie_self_keep _ _ _ hc2).symm.trans he')
      rw [← h4]

/-- Witness world for C6's amended theorem: the counterexample world. -/
theorem c6_amended_witness :
    (c6w.q.host_entries_.map Prod.fst).Nodup ∧
    (c6w.hs 1).dispatch_state = DISPATCH_ACTIVE ∧
    alist_find c6w.q.host_entries_ (key_of c6w 1) =
      some { num_active := 1, blocked := [none, none, some 2, some 3] } ∧
    ([none, none, some 2, some 3] =
      List.replicate 2 none ++ some 2 :: [some 3]) ∧
    ((remove_and_get_blocked c6w 1).2 = some 2 ∧
     (∀ e', alist_find (remove_and_get_blocked c6w 1).1.q.host_entries_ (key_of c6w 1) =
        some e' → e'.blocked = [some 3])) :=
  ⟨by decide, by decide, by decide, by decide,
   c6_amended_all_leading_stale_removed c6w 1 2 2 [some 3]
     { num_active := 1, blocked := [none, none, some 2, some 3] }
     (by decide) (by decide) (by decide) (by decide) (by decide) (by decide) (by decide)⟩

/-- Counterexample world for C4: handle 1 is active on x and the only
blocked-list link of x is stale. -/
def c4w : World :=
  { q := { conn_max_per_host_ := 2, unified_host_ := false, downstreams_ := [1],
           host_entries_ := [(hostx, { num_active := 1, blocked := [none] })] },
    hs := fun i =>
      if i = 1 then { request_http2_authority := hostx,
                      dispatch_state := DISPATCH_ACTIVE, blocked_link := false }
      else { request_http2_authority := "",
             dispatch_state := DISPATCH_NONE, blocked_link := false } }

/-- Counterexample for C4: releasing handle 1 decrements x's counter to 0 and
the scan removes the stale link, emptying the blocked list, but no emptiness
check runs after that removal: the completed call leaves the empty HostEntry
`{0, []}` for x in the destination map. -/
theorem c4_counterexample :
    (remove_and_get_blocked c4w 1).2 = none ∧
    alist_find (remove_and_get_blocked c4w 1).1.q.host_entries_ hostx =
      some { num_active := 0, blocked := [] } := by
  decide

/-- Entry lookup after `mark_active` at the handle's own key. -/
theorem find_mark_active_self (w : World) (hid : Nat) :
    alist_find (mark_active w hid).q.host_entries_ (make_host_keyD w.q (w.hs hid)) =
      some { (alist_find w.q.host_entries_ (make_host_keyD w.q (w.hs hid))).getD empty_entry
             with num_active := szAdd1 ((alist_find w.q.host_entries_
               (make_host_keyD w.q (w.hs hid))).getD empty_entry).num_active } :=
  alist_find_set_self _ _ _

/-- Entry lookup after `mark_active` at any other key. -/
theorem find_mark_active_ne (w : World) (hid : Nat) (k : String)
    (h : k ≠ make_host_keyD w.q (w.hs hid)) :
    alist_find (mark_active w hid).q.host_entries_ k = alist_find w.q.host_entries_ k :=
  alist_find_set_ne _ _ _ _ h

/-- Entry lookup after `mark_blocked` at the handle's own key. -/
theorem find_mark_blocked_self (w : World) (hid : Nat) :
    alist_find (mark_blocked w hid).q.host_entries_ (make_host_keyD w.q (w.hs hid)) =
      some { (alist_find w.q.host_entries_ (make_host_keyD w.q (w.hs hid))).getD empty_entry
             with blocked := ((alist_find w.q.host_entries_
               (make_host_keyD w.q (w.hs hid))).getD empty_entry).blocked ++ [some hid] } :=
  alist_find_set_self _ _ _

/-- Entry lookup after `mark_blocked` at any other key. -/
theorem find_mark_blocked_ne (w : World) (hid : Nat) (k : String)
    (h : k ≠ make_host_keyD w.q (w.hs hid)) :
    alist_find (mark_blocked w hid).q.host_entries_ k = alist_find w.q.host_entries_ k :=
  alist_find_set_ne _ _ _ _ h

/-- The decrement does not touch the blocked list. -/
theorem rgb_ent1_blocked_eq (w : World) (hid : Nat) :
    (rgb_ent1 w hid).blocked = (rgb_ent0 w hid).blocked := by
  unfold rgb_ent1
  rfl

/-- `rgb_ent0` when the entry is absent. -/
theorem rgb_ent0_none (w : World) (hid : Nat)
    (hf : alist_find w.q.host_entries_ (key_of w hid) = none) :
    rgb_ent0 w hid = empty_entry := by
  unfold rgb_ent0
  rw [hf]
  rfl

/-- `rgb_ent0` when the entry is present. -/
theorem rgb_ent0_some (w : World) (hid : Nat) (e : HostEntry)
    (hf : alist_find w.q.host_entries_ (key_of w hid) = some e) :
    rgb_ent0 w hid = e := by
  unfold rgb_ent0
  rw [hf]
  rfl

/-- No entry in the destination map is empty (the garbage-collection goal of
`remove_host_entry_if_empty`). -/
def entries_nonempty (w : World) : Prop :=
  ∀ k e, alist_find w.q.host_entries_ k = some e → 1 ≤ e.num_active ∨ e.blocked ≠ []

/-- No blocked list holds a stale link. -/
def no_stale_links (w : World) : Prop :=
  ∀ k e, alist_find w.q.host_entries_ k = some e → ∀ l ∈ e.blocked, l ≠ none

/-- Every counter is below `size_t_max` (any state reachable by fewer than
`2 ^ 64 - 1` activations satisfies this). -/
def counters_small (w : World) : Prop :=
  ∀ k e, alist_find w.q.host_entries_ k = some e → e.num_active < size_t_max

/-- C4 amended: emptiness is checked after the decrement and after removing a
promoted waiter's link, but not after stale-link removals.  Consequently, as
long as no blocked list holds a stale link (and all counters are below the
`size_t` maximum), no single queue operation can leave an empty HostEntry in
the destination map; the counterexample shows a stale link defeats this. -/
theorem c4_amended_no_empty_entry_without_stale (w : World) (op : Op)
    (hnodup : (w.q.host_entries_.map Prod.fst).Nodup)
    (hne : entries_nonempty w) (hns : no_stale_links w) (hcs : counters_small w) :
    entries_nonempty (step w op).1 := by
  cases op with
  | submit hid auth =>
    intro k e he
    exact hne k e he
  | failure_of hid =>
    intro k e he
    exact hne k e he
  | activate hid =>
    show entries_nonempty (mark_active w hid)
    intro k e he
    by_cases hk : k = make_host_keyD w.q (w.hs hid)
    · subst hk
      have h4 := Option.some.inj ((find_mark_active_self w hid).symm.trans he)
      left
      rw [← h4]
      show 1 ≤ szAdd1 ((alist_find w.q.host_entries_
        (make_host_keyD w.q (w.hs hid))).getD empty_entry).num_active
      have hn0 : ((alist_find w.q.host_entries_
          (make_host_keyD w.q (w.hs hid))).getD empty_entry).num_active < size_t_max := by
        cases hf : alist_find w.q.host_entries_ (make_host_keyD w.q (w.hs hid)) with
        | none => decide
        | some ee => exact hcs _ ee hf
      rw [szAdd1_eq _ hn0]
      omega
    · exact hne k e ((find_mark_active_ne w hid k hk).symm.trans he)
  | block hid =>
    show entries_nonempty (mark_blocked w hid)
    intro k e he
    by_cases hk : k = make_host_keyD w.q (w.hs hid)
    · subst hk
      have h4 := Option.some.inj ((find_mark_blocked_self w hid).symm.trans he)
      right
      rw [← h4]
      show ((alist_find w.q.host_entries_
        (make_host_keyD w.q (w.hs hid))).getD empty_entry).blocked ++ [some hid] ≠ []
      simp
    · exact hne k e ((find_mark_blocked_ne w hid k hk).symm.trans he)
  | release hid =>
    show entries_nonempty (remove_and_get_blocked w hid).1
    by_cases hact : (w.hs hid).dispatch_state = DISPATCH_ACTIVE
    · by_cases hcond : (rgb_ent1 w hid).blocked = [] ∧ (rgb_ent1 w hid).num_active = 0
      · rw [rgb_eq_erase w hid hact hcond]
        intro k e he
        by_cases hk : k = key_of w hid
        · subst hk
          exact Option.noConfusion
            ((alist_find_erase_self _ _ (alist_nodup_set _ _ _ hnodup)).symm.trans he)
        · have h2 := (alist_find_erase_ne (rgb_m1 w hid) (key_of w hid) k hk).symm.trans he
          exact hne k e ((alist_find_set_ne _ _ _ _ hk).symm.trans h2)
      · by_cases hcap : w.q.conn_max_per_host_ ≤ (rgb_ent1 w hid).num_active
        · rw [rgb_eq_capfull w hid hact hcond hcap]
          intro k e he
          by_cases hk : k = key_of w hid
          · subst hk
            have h4 := Option.some.inj ((alist_find_set_self w.q.host_entries_
              (key_of w hid) (rgb_ent1 w hid)).symm.trans he)
            rw [← h4]
            by_cases hb : (rgb_ent1 w hid).blocked = []
            · left
              have hz : (rgb_ent1 w hid).num_active ≠ 0 := fun h0 => hcond ⟨hb, h0⟩
              omega
            · right
              exact hb
          · exact hne k e ((alist_find_set_ne _ _ _ _ hk).symm.trans he)
        · rcases hscan : scan_blocked (rgb_ent1 w hid).blocked with ⟨r, rest⟩
          cases r with
          | some wid =>
            rw [rgb_eq_promote w hid wid rest hact hcond hcap hscan]
            intro k e he
            by_cases hk : k = key_of w hid
            · subst hk
              by_cases hc2 : ({ rgb_ent1 w hid with blocked := rest } : HostEntry).blocked
                  = [] ∧
                  ({ rgb_ent1 w hid with blocked := rest } : HostEntry).num_active = 0
              · exact Option.noConfusion
                  ((find_rhie_self_empty _ _ _ hnodup hc2).symm.trans he)
              · have h4 := Option.some.inj ((find_rhie_self_keep _ _ _ hc2).symm.trans he)
                rw [← h4]
                by_cases hb : ({ rgb_ent1 w hid with blocked := rest } : HostEntry).blocked
                    = []
                · left
                  have hz : (rgb_ent1 w hid).num_active ≠ 0 := fun h0 => hc2 ⟨hb, h0⟩
                  show 1 ≤ (rgb_ent1 w hid).num_active
                  omega
                · right
                  exact hb
            · exact hne k e ((find_rhie_ne _ _ _ _ hk).symm.trans he)
          | none =>
            rw [rgb_eq_exhaust w hid rest hact hcond hcap hscan]
            intro k e he
            by_cases hk : k = key_of w hid
            · subst hk
              have h4 := Option.some.inj ((alist_find_set_self w.q.host_entries_
                (key_of w hid) { rgb_ent1 w hid with blocked := rest }).symm.trans he)
              rw [← h4]
              left
              obtain ⟨hrest, hall⟩ := scan_blocked_none_eq _ _ hscan
              have hbl0 : (rgb_ent1 w hid).blocked = [] := by
                cases hf : alist_find w.q.host_entries_ (key_of w hid) with
                | none =>
                  rw [rgb_ent1_blocked_eq, rgb_ent0_none w hid hf]
                  rfl
                | some ee =>
                  rw [rgb_ent1_blocked_eq, rgb_ent0_some w hid ee hf]
                  cases hbb : ee.blocked with
                  | nil => rfl
                  | cons x xs =>
                    exfalso
                    have hx : x = none := by
                      apply hall
                      rw [rgb_ent1_blocked_eq, rgb_ent0_some w hid ee hf, hbb]
                      exact List.mem_cons_self x xs
                    exact hns _ ee hf x (by rw [hbb]; exact List.mem_cons_self x xs) hx
              have hz : (rgb_ent1 w hid).num_active ≠ 0 := fun h0 => hcond ⟨hbl0, h0⟩
              show 1 ≤ (rgb_ent1 w hid).num_active
              omega
            · exact hne k e ((alist_find_set_ne _ _ _ _ hk).symm.trans he)
    · rw [rgb_not_active w hid hact]
      intro k e he
      exact hne k e he

/-- Lookup in a one-entry map pins down key and entry. -/
theorem alist_find_singleton (k0 : String) (e0 : HostEntry) (k : String) (e : HostEntry)
    (h : alist_find [(k0, e0)] k = some e) : k = k0 ∧ e = e0 := by
  rw [alist_find_cons] at h
  by_cases hk : k0 = k
  · rw [if_pos hk] at h
    exact ⟨hk.symm, (Option.some.inj h).symm⟩
  · rw [if_neg hk] at h
    exact Option.noConfusion h

/-- Witness for C4's amended theorem at a concrete input: in the stale-free
world `c10w` (one active handle and one live waiter on x), releasing the
active handle leaves no empty entry behind. -/
theorem c4_amended_witness :
    (c10w.q.host_entries_.map Prod.fst).Nodup ∧
    entries_nonempty c10w ∧ no_stale_links c10w ∧ counters_small c10w ∧
    entries_nonempty (step c10w (Op.release 1)).1 := by
  have h12 : c10w.q.host_entries_ = [(hostx, { num_active := 1, blocked := [some 2] })] := by
    decide
  have hne : entries_nonempty c10w := by
    intro k e he
    rw [h12] at he
    obtain ⟨hk, hee⟩ := alist_find_singleton _ _ _ _ he
    subst hee
    left
    decide
  have hns : no_stale_links c10w := by
    intro k e he
    rw [h12] at he
    obtain ⟨hk, hee⟩ := alist_find_singleton _ _ _ _ he
    subst hee
    intro l hl
    rcases List.mem_singleton.mp hl with rfl
    decide
  have hcs : counters_small c10w := by
    intro k e he
    rw [h12] at he
    obtain ⟨hk, hee⟩ := alist_find_singleton _ _ _ _ he
    subst hee
    decide
  exact ⟨by decide, hne, hns, hcs,
    c4_amended_no_empty_entry_without_stale c10w (Op.release 1) (by decide) hne hns hcs⟩

/-- Counterexample world for C2, built by the queue's own calls: handle 0
is activated on x, then handles 3, 1, 2 are blocked on x in that order
(cap 2, non-unified).  Taking A := 1 and B := 2, both are blocked on the
same key and A's link precedes B's. -/
def c2w : World :=
  mark_blocked (add_pending (mark_blocked (add_pending (mark_blocked (add_pending
    (mark_active (add_pending (World.init 2 false) 0 hostx) 0)
    3 hostx) 3) 1 hostx) 1) 2 hostx) 2

/-- Counterexample for C2 as frozen: handles A = 1 and B = 2 are both
blocked on x and A's link precedes B's, yet releasing the active handle 0
returns a waiter that is neither A nor B (it is the earlier waiter 3), so
"any release_and_promote call on that destination that returns a waiter
returns A" is false.  ("Never B" does hold; see the amended theorem.) -/
theorem c2_counterexample :
    (c2w.hs 1).dispatch_state = DISPATCH_BLOCKED ∧
    (c2w.hs 2).dispatch_state = DISPATCH_BLOCKED ∧
    alist_find c2w.q.host_entries_ hostx =
      some { num_active := 1, blocked := [some 3, some 1, some 2] } ∧
    ((remove_and_get_blocked c2w 0).2).isSome = true ∧
    (remove_and_get_blocked c2w 0).2 ≠ some 1 ∧
    (remove_and_get_blocked c2w 0).2 = some 3 := by
  decide

/-- A scan that stops at `wid` stopped either inside `l1` or exactly at the
first live link `a` that follows `l1`. -/
theorem first_live_mem_or_eq (l1 : List (Option Nat)) (a wid : Nat)
    (l2 rest : List (Option Nat)) :
    ∀ pre, l1 ++ some a :: l2 = pre ++ some wid :: rest →
      (∀ x ∈ pre, x = none) → some wid ∈ l1 ∨ wid = a := by
  induction l1 with
  | nil =>
    intro pre hpre hall
    cases pre with
    | nil =>
      right
      simp only [List.nil_append] at hpre
      injection hpre with h1 h2
      exact (Option.some.inj h1).symm
    | cons p ps =>
      exfalso
      simp only [List.nil_append, List.cons_append] at hpre
      injection hpre with h1 h2
      have hp := hall p (List.mem_cons_self p ps)
      rw [hp] at h1
      exact Option.noConfusion h1
  | cons x xs ih =>
    intro pre hpre hall
    cases pre with
    | nil =>
      left
      simp only [List.nil_append, List.cons_append] at hpre
      injection hpre with h1 h2
      rw [h1]
      exact List.mem_cons_self _ _
    | cons p ps =>
      simp only [List.cons_append] at hpre
      injection hpre with h1 h2
      rcases ih ps h2 (fun y hy => hall y (List.mem_cons_of_mem p hy)) with hm | heq
      · left
        exact List.mem_cons_of_mem x hm
      · right
        exact heq

/-- Scanning past an all-stale prefix yields the first live link. -/
theorem scan_blocked_stale_prefix (l1 : List (Option Nat)) (a : Nat)
    (l2 : List (Option Nat)) (hall : ∀ x ∈ l1, x = none) :
    scan_blocked (l1 ++ some a :: l2) = (some a, l2) := by
  induction l1 with
  | nil => rfl
  | cons x xs ih =>
    have hx : x = none := hall x (List.mem_cons_self x xs)
    subst hx
    rw [List.cons_append]
    show scan_blocked (xs ++ some a :: l2) = (some a, l2)
    exact ih (fun y hy => hall y (List.mem_cons_of_mem none hy))

/-- C2 amended: a waiter returned by `release_and_promote` is the first live
link of the destination's blocked list: it is never a handle `b` whose link
sits behind a live link to `a ≠ b`, and it is `a` itself whenever every link
before `a`'s is stale and capacity was freed. -/
theorem c2_fifo_first_live_waiter (w : World) (hid a b : Nat)
    (l1 l2 : List (Option Nat)) (e : HostEntry)
    (hfind : alist_find w.q.host_entries_ (key_of w hid) = some e)
    (hblocked : e.blocked = l1 ++ some a :: l2)
    (hb1 : some b ∉ l1) (hab : b ≠ a) :
    (remove_and_get_blocked w hid).2 ≠ some b ∧
    ((∀ x ∈ l1, x = none) → (w.hs hid).dispatch_state = DISPATCH_ACTIVE →
      1 ≤ e.num_active → e.num_active ≤ size_t_max →
      e.num_active - 1 < w.q.conn_max_per_host_ →
      (remove_and_get_blocked w hid).2 = some a) := by
  have he0 : rgb_ent0 w hid = e := rgb_ent0_some w hid e hfind
  have hbl : (rgb_ent1 w hid).blocked = l1 ++ some a :: l2 := by
    rw [rgb_ent1_blocked_eq, he0]
    exact hblocked
  constructor
  · intro hres
    by_cases hact : (w.hs hid).dispatch_state = DISPATCH_ACTIVE
    · by_cases hcond : (rgb_ent1 w hid).blocked = [] ∧ (rgb_ent1 w hid).num_active = 0
      · rw [rgb_eq_erase w hid hact hcond] at hres
        simp at hres
      · by_cases hcap : w.q.conn_max_per_host_ ≤ (rgb_ent1 w hid).num_active
        · rw [rgb_eq_capfull w hid hact hcond hcap] at hres
          simp at hres
        · rcases hscan : scan_blocked (rgb_ent1 w hid).blocked with ⟨r, rest⟩
          cases r with
          | none =>
            rw [rgb_eq_exhaust w hid rest hact hcond hcap hscan] at hres
            simp at hres
          | some wid =>
            rw [rgb_eq_promote w hid wid rest hact hcond hcap hscan] at hres
            have hwb : wid = b := by simpa using hres
            subst hwb
            rw [hbl] at hscan
            rcases scan_blocked_some_decomp _ _ _ hscan with ⟨pre, hpre, hall⟩
            rcases first_live_mem_or_eq l1 a wid l2 rest pre hpre hall with hm | heq
            · exact hb1 hm
            · exact hab heq
    · rw [rgb_not_active w hid hact] at hres
      simp at hres
  · intro hallstale hact hnum hbound hcap
    have hcond : ¬((rgb_ent1 w hid).blocked = [] ∧ (rgb_ent1 w hid).num_active = 0) := by
      intro hcc
      have h0 := hbl.symm.trans hcc.1
      simp at h0
    have hcap' : ¬(w.q.conn_max_per_host_ ≤ (rgb_ent1 w hid).num_active) := by
      have he1 : rgb_ent1 w hid =
          { num_active := e.num_active - 1, blocked := e.blocked } := by
        unfold rgb_ent1
        rw [he0, szSub1_eq e.num_active hnum hbound]
      rw [he1]
      exact Nat.not_le.mpr hcap
    have hscan : scan_blocked (rgb_ent1 w hid).blocked = (some a, l2) := by
      rw [hbl]
      exact scan_blocked_stale_prefix l1 a l2 hallstale
    rw [rgb_eq_promote w hid a l2 hact hcond hcap' hscan]

/-- Witness for C2's amended theorem at the counterexample world: with
A' = 3 the earliest live waiter (empty stale prefix), B = 2 behind it:
the call cannot return 2, and returns 3. -/
theorem c2_amended_witness :
    alist_find c2w.q.host_entries_ (key_of c2w 0) =
      some { num_active := 1, blocked := [some 3, some 1, some 2] } ∧
    ([some 3, some 1, some 2] = [] ++ some 3 :: [some 1, some 2]) ∧
    some 2 ∉ ([] : List (Option Nat)) ∧ (2 : Nat) ≠ 3 ∧
    ((remove_and_get_blocked c2w 0).2 ≠ some 2 ∧
     ((∀ x ∈ ([] : List (Option Nat)), x = none) →
      (c2w.hs 0).dispatch_state = DISPATCH_ACTIVE →
      1 ≤ (1 : Nat) → (1 : Nat) ≤ size_t_max →
      (1 : Nat) - 1 < c2w.q.conn_max_per_host_ →
      (remove_and_get_blocked c2w 0).2 = some 3)) :=
  ⟨by decide, by decide, by decide, by decide,
   c2_fifo_first_live_waiter c2w 0 3 2 [] [some 1, some 2]
     { num_active := 1, blocked := [some 3, some 1, some 2] }
     (by decide) (by decide) (by decide) (by decide)⟩

/-! ## The cap invariant (C1) -/

/-- The ids of handles that are currently ACTIVE for key `k` and still owned
by the queue: mentioned in the trace (`seen`), not yet released (`dead`). -/
def live_active_set (w : World) (seen dead : List Nat) (k : String) : Finset Nat :=
  seen.toFinset.filter
    (fun h => h ∉ dead ∧ (w.hs h).dispatch_state = DISPATCH_ACTIVE ∧ key_of w h = k)

theorem mem_live_active_set (w : World) (seen dead : List Nat) (k : String) (i : Nat) :
    i ∈ live_active_set w seen dead k ↔
      i ∈ seen ∧ i ∉ dead ∧ (w.hs i).dispatch_state = DISPATCH_ACTIVE ∧ key_of w i = k := by
  simp [live_active_set, List.mem_toFinset, and_assoc]

theorem key_of_congr (w' w : World) (v : Nat)
    (hu : w'.q.unified_host_ = w.q.unified_host_)
    (ha : (w'.hs v).request_http2_authority = (w.hs v).request_http2_authority) :
    key_of w' v = key_of w v := by
  unfold key_of make_host_keyD make_host_key
  rw [hu, ha]

/-- The inductive invariant behind the cap bound: all counters are at most
`cap`; a freshly promoted waiter's destination has spare capacity; every
blocked link refers to an already-seen handle with the matching key; each
destination's counter dominates the number of its live ACTIVE handles; and
unseen ids are untouched objects. -/
structure C1Inv (w : World) (promoted : Option Nat) (seen dead : List Nat) (cap : Nat) :
    Prop where
  hcap_eq : w.q.conn_max_per_host_ = cap
  hcap1 : 1 ≤ cap
  hcapM : cap ≤ size_t_max
  nodup_keys : (w.q.host_entries_.map Prod.fst).Nodup
  bounded : ∀ k e, alist_find w.q.host_entries_ k = some e → e.num_active ≤ cap
  slack : ∀ v, promoted = some v →
    ∀ e, alist_find w.q.host_entries_ (key_of w v) = some e → e.num_active < cap
  links : ∀ k e, alist_find w.q.host_entries_ k = some e →
    ∀ v, some v ∈ e.blocked → v ∈ seen ∧ key_of w v = k
  counts : ∀ k, (live_active_set w seen dead k).card ≤ ent_num w k
  fresh_none : ∀ h, h ∉ seen → (w.hs h).dispatch_state = DISPATCH_NONE

theorem add_pending_hs_ne (w : World) (hid : Nat) (auth : String) (i : Nat) (h : i ≠ hid) :
    (add_pending w hid auth).hs i = w.hs i := by
  show (if i = hid then _ else w.hs i) = w.hs i
  rw [if_neg h]

theorem mark_failure_hs_ne (w : World) (hid i : Nat) (h : i ≠ hid) :
    (mark_failure w hid).hs i = w.hs i := by
  show (if i = hid then _ else w.hs i) = w.hs i
  rw [if_neg h]

theorem mark_active_hs_ne (w : World) (hid i : Nat) (h : i ≠ hid) :
    (mark_active w hid).hs i = w.hs i := by
  show (if i = hid then _ else w.hs i) = w.hs i
  rw [if_neg h]

theorem mark_blocked_hs_ne (w : World) (hid i : Nat) (h : i ≠ hid) :
    (mark_blocked w hid).hs i = w.hs i := by
  show (if i = hid then _ else w.hs i) = w.hs i
  rw [if_neg h]

theorem add_pending_hs_self (w : World) (hid : Nat) (auth : String) :
    (add_pending w hid auth).hs hid =
      { request_http2_authority := auth, dispatch_state := DISPATCH_PENDING,
        blocked_link := false } := by
  show (if hid = hid then _ else _) = _
  rw [if_pos rfl]

theorem mark_failure_hs_self (w : World) (hid : Nat) :
    (mark_failure w hid).hs hid =
      { w.hs hid with dispatch_state := DISPATCH_FAILURE } := by
  show (if hid = hid then _ else _) = _
  rw [if_pos rfl]

theorem mark_active_hs_self (w : World) (hid : Nat) :
    (mark_active w hid).hs hid =
      { w.hs hid with dispatch_state := DISPATCH_ACTIVE } := by
  show (if hid = hid then _ else _) = _
  rw [if_pos rfl]

theorem mark_blocked_hs_self (w : World) (hid : Nat) :
    (mark_blocked w hid).hs hid =
      { w.hs hid with dispatch_state := DISPATCH_BLOCKED, blocked_link := true } := by
  show (if hid = hid then _ else _) = _
  rw [if_pos rfl]

theorem key_of_add_pending_ne (w : World) (hid : Nat) (auth : String) (v : Nat)
    (h : v ≠ hid) : key_of (add_pending w hid auth) v = key_of w v :=
  key_of_congr _ w v rfl (by rw [add_pending_hs_ne w hid auth v h])

theorem key_of_mark_failure (w : World) (hid v : Nat) :
    key_of (mark_failure w hid) v = key_of w v := by
  by_cases h : v = hid
  · subst h
    exact key_of_congr _ w v rfl (by rw [mark_failure_hs_self])
  · exact key_of_congr _ w v rfl (by rw [mark_failure_hs_ne w hid v h])

theorem key_of_mark_active (w : World) (hid v : Nat) :
    key_of (mark_active w hid) v = key_of w v := by
  by_cases h : v = hid
  · subst h
    exact key_of_congr _ w v rfl (by rw [mark_active_hs_self])
  · exact key_of_congr _ w v rfl (by rw [mark_active_hs_ne w hid v h])

theorem key_of_mark_blocked (w : World) (hid v : Nat) :
    key_of (mark_blocked w hid) v = key_of w v := by
  by_cases h : v = hid
  · subst h
    exact key_of_congr _ w v rfl (by rw [mark_blocked_hs_self])
  · exact key_of_congr _ w v rfl (by rw [mark_blocked_hs_ne w hid v h])

theorem ent_num_of_find (w : World) (k : String) (e : HostEntry)
    (h : alist_find w.q.host_entries_ k = some e) : ent_num w k = e.num_active := by
  unfold ent_num
  rw [h]
  rfl

theorem ent_num_of_none (w : World) (k : String)
    (h : alist_find w.q.host_entries_ k = none) : ent_num w k = 0 := by
  unfold ent_num
  rw [h]
  rfl

theorem ent_num_mark_blocked (w : World) (hid : Nat) (k : String) :
    ent_num (mark_blocked w hid) k = ent_num w k := by
  by_cases hk : k = make_host_keyD w.q (w.hs hid)
  · subst hk
    rw [ent_num_of_find _ _ _ (find_mark_blocked_self w hid)]
    rfl
  · unfold ent_num
    rw [find_mark_blocked_ne w hid k hk]

theorem ent_num_mark_active_self (w : World) (hid : Nat) :
    ent_num (mark_active w hid) (make_host_keyD w.q (w.hs hid)) =
      szAdd1 (ent_num w (make_host_keyD w.q (w.hs hid))) := by
  rw [ent_num_of_find _ _ _ (find_mark_active_self w hid)]
  rfl

theorem ent_num_mark_active_ne (w : World) (hid : Nat) (k : String)
    (hk : k ≠ make_host_keyD w.q (w.hs hid)) :
    ent_num (mark_active w hid) k = ent_num w k := by
  unfold ent_num
  rw [find_mark_active_ne w hid k hk]

theorem c1_inv_submit (w : World) (p : Option Nat) (seen dead : List Nat) (cap : Nat)
    (hid : Nat) (auth : String) (inv : C1Inv w p seen dead cap) (hfresh : hid ∉ seen) :
    C1Inv (add_pending w hid auth) none (hid :: seen) dead cap where
  hcap_eq := inv.hcap_eq
  hcap1 := inv.hcap1
  hcapM := inv.hcapM
  nodup_keys := inv.nodup_keys
  bounded := fun k e he => inv.bounded k e he
  slack := fun v hv => Option.noConfusion hv
  links := by
    intro k e he v hv
    have hl := inv.links k e he v hv
    have hvne : v ≠ hid := fun hh => hfresh (hh ▸ hl.1)
    exact ⟨List.mem_cons_of_mem _ hl.1, (key_of_add_pending_ne w hid auth v hvne).trans hl.2⟩
  counts := by
    intro k
    have hsub : live_active_set (add_pending w hid auth) (hid :: seen) dead k ⊆
        live_active_set w seen dead k := by
      intro i hi
      rw [mem_live_active_set] at hi ⊢
      rcases hi with ⟨hiseen, hidead, hstate, hkey⟩
      have hine : i ≠ hid := by
        intro hh
        subst hh
        rw [add_pending_hs_self] at hstate
        cases hstate
      have hiseen' : i ∈ seen := by
        rcases List.mem_cons.mp hiseen with h1 | h1
        · exact absurd h1 hine
        · exact h1
      rw [add_pending_hs_ne w hid auth i hine] at hstate
      rw [key_of_add_pending_ne w hid auth i hine] at hkey
      exact ⟨hiseen', hidead, hstate, hkey⟩
    exact le_trans (Finset.card_le_card hsub) (inv.counts k)
  fresh_none := by
    intro h hh
    have h1 : h ∉ seen := fun hc => hh (List.mem_cons_of_mem _ hc)
    have h2 : h ≠ hid := fun hc => hh (hc ▸ List.mem_cons_self _ _)
    rw [add_pending_hs_ne w hid auth h h2]
    exact inv.fresh_none h h1

theorem c1_inv_failure (w : World) (p : Option Nat) (seen dead : List Nat) (cap : Nat)
    (hid : Nat) (inv : C1Inv w p seen dead cap) :
    C1Inv (mark_failure w hid) none (hid :: seen) dead cap where
  hcap_eq := inv.hcap_eq
  hcap1 := inv.hcap1
  hcapM := inv.hcapM
  nodup_keys := inv.nodup_keys
  bounded := fun k e he => inv.bounded k e he
  slack := fun v hv => Option.noConfusion hv
  links := by
    intro k e he v hv
    have hl := inv.links k e he v hv
    exact ⟨List.mem_cons_of_mem _ hl.1, (key_of_mark_failure w hid v).trans hl.2⟩
  counts := by
    intro k
    have hsub : live_active_set (mark_failure w hid) (hid :: seen) dead k ⊆
        live_active_set w seen dead k := by
      intro i hi
      rw [mem_live_active_set] at hi ⊢
      rcases hi with ⟨hiseen, hidead, hstate, hkey⟩
      have hine : i ≠ hid := by
        intro hh
        subst hh
        rw [mark_failure_hs_self] at hstate
        cases hstate
      have hiseen' : i ∈ seen := by
        rcases List.mem_cons.mp hiseen with h1 | h1
        · exact absurd h1 hine
        · exact h1
      rw [mark_failure_hs_ne w hid i hine] at hstate
      rw [key_of_mark_failure w hid i] at hkey
      exact ⟨hiseen', hidead, hstate, hkey⟩
    exact le_trans (Finset.card_le_card hsub) (inv.counts k)
  fresh_none := by
    intro h hh
    have h1 : h ∉ seen := fun hc => hh (List.mem_cons_of_mem _ hc)
    have h2 : h ≠ hid := fun hc => hh (hc ▸ List.mem_cons_self _ _)
    rw [mark_failure_hs_ne w hid h h2]
    exact inv.fresh_none h h1

theorem c1_inv_blocked (w : World) (p : Option Nat) (seen dead : List Nat) (cap : Nat)
    (hid : Nat) (inv : C1Inv w p seen dead cap) :
    C1Inv (mark_blocked w hid) none (hid :: seen) dead cap where
  hcap_eq := inv.hcap_eq
  hcap1 := inv.hcap1
  hcapM := inv.hcapM
  nodup_keys := alist_nodup_set _ _ _ inv.nodup_keys
  bounded := by
    intro k e he
    by_cases hk : k = make_host_keyD w.q (w.hs hid)
    · subst hk
      have h4 := Option.some.inj ((find_mark_blocked_self w hid).symm.trans he)
      rw [← h4]
      show ((alist_find w.q.host_entries_
        (make_host_keyD w.q (w.hs hid))).getD empty_entry).num_active ≤ cap
      cases hf : alist_find w.q.host_entries_ (make_host_keyD w.q (w.hs hid)) with
      | none =>
        have : (0 : Nat) ≤ cap := Nat.zero_le cap
        exact this
      | some ee => exact inv.bounded _ ee hf
    · exact inv.bounded k e ((find_mark_blocked_ne w hid k hk).symm.trans he)
  slack := fun v hv => Option.noConfusion hv
  links := by
    intro k e he v hv
    by_cases hk : k = make_host_keyD w.q (w.hs hid)
    · subst hk
      have h4 := Option.some.inj ((find_mark_blocked_self w hid).symm.trans he)
      rw [← h4] at hv
      have hv2 : some v ∈ ((alist_find w.q.host_entries_
          (make_host_keyD w.q (w.hs hid))).getD empty_entry).blocked ++ [some hid] := hv
      rcases List.mem_append.mp hv2 with h1 | h1
      · cases hf : alist_find w.q.host_entries_ (make_host_keyD w.q (w.hs hid)) with
        | none =>
          rw [hf] at h1
          cases h1
        | some ee =>
          rw [hf] at h1
          have hl := inv.links _ ee hf v h1
          exact ⟨List.mem_cons_of_mem _ hl.1, (key_of_mark_blocked w hid v).trans hl.2⟩
      · have hvh : v = hid := by
          have := List.mem_singleton.mp h1
          exact Option.some.inj this
        rw [hvh]
        refine ⟨List.mem_cons_self _ _, ?_⟩
        rw [key_of_mark_blocked w hid hid]
        rfl
    · have hl := inv.links k e ((find_mark_blocked_ne w hid k hk).symm.trans he) v hv
      exact ⟨List.mem_cons_of_mem _ hl.1, (key_of_mark_blocked w hid v).trans hl.2⟩
  counts := by
    intro k
    rw [ent_num_mark_blocked w hid k]
    have hsub : live_active_set (mark_blocked w hid) (hid :: seen) dead k ⊆
        live_active_set w seen dead k := by
      intro i hi
      rw [mem_live_active_set] at hi ⊢
      rcases hi with ⟨hiseen, hidead, hstate, hkey⟩
      have hine : i ≠ hid := by
        intro hh
        subst hh
        rw [mark_blocked_hs_self] at hstate
        cases hstate
      have hiseen' : i ∈ seen := by
        rcases List.mem_cons.mp hiseen with h1 | h1
        · exact absurd h1 hine
        · exact h1
      rw [mark_blocked_hs_ne w hid i hine] at hstate
      rw [key_of_mark_blocked w hid i] at hkey
      exact ⟨hiseen', hidead, hstate, hkey⟩
    exact le_trans (Finset.card_le_card hsub) (inv.counts k)
  fresh_none := by
    intro h hh
    have h1 : h ∉ seen := fun hc => hh (List.mem_cons_of_mem _ hc)
    have h2 : h ≠ hid := fun hc => hh (hc ▸ List.mem_cons_self _ _)
    rw [mark_blocked_hs_ne w hid h h2]
    exact inv.fresh_none h h1

theorem make_host_keyD_eq (q : DownstreamQueue) (d : Downstream) :
    make_host_keyD q d = make_host_key q d.request_http2_authority := rfl

theorem key_of_eq (w : World) (hid : Nat) :
    key_of w hid = make_host_keyD w.q (w.hs hid) := rfl

theorem c1_inv_activate (w : World) (p : Option Nat) (seen dead : List Nat) (cap : Nat)
    (hid : Nat) (inv : C1Inv w p seen dead cap)
    (hg : can_activate w.q (w.hs hid).request_http2_authority = true ∨ p = some hid) :
    C1Inv (mark_active w hid) none (hid :: seen) dead cap := by
  have hlt : ent_num w (make_host_keyD w.q (w.hs hid)) < cap := by
    rcases hg with hca | hp
    · unfold can_activate at hca
      rw [← make_host_keyD_eq] at hca
      cases hf : alist_find w.q.host_entries_ (make_host_keyD w.q (w.hs hid)) with
      | none =>
        rw [ent_num_of_none w _ hf]
        exact inv.hcap1
      | some e =>
        rw [hf] at hca
        rw [ent_num_of_find w _ e hf, ← inv.hcap_eq]
        exact of_decide_eq_true hca
    · cases hf : alist_find w.q.host_entries_ (make_host_keyD w.q (w.hs hid)) with
      | none =>
        rw [ent_num_of_none w _ hf]
        exact inv.hcap1
      | some e =>
        rw [ent_num_of_find w _ e hf]
        exact inv.slack hid hp e (by rw [key_of_eq] at *; exact hf)
  have hltM : ent_num w (make_host_keyD w.q (w.hs hid)) < size_t_max :=
    lt_of_lt_of_le hlt inv.hcapM
  exact
  { hcap_eq := inv.hcap_eq
    hcap1 := inv.hcap1
    hcapM := inv.hcapM
    nodup_keys := alist_nodup_set _ _ _ inv.nodup_keys
    bounded := by
      intro k e he
      by_cases hk : k = make_host_keyD w.q (w.hs hid)
      · subst hk
        have h4 := Option.some.inj ((find_mark_active_self w hid).symm.trans he)
        rw [← h4]
        show szAdd1 (ent_num w (make_host_keyD w.q (w.hs hid))) ≤ cap
        rw [szAdd1_eq _ hltM]
        omega
      · exact inv.bounded k e ((find_mark_active_ne w hid k hk).symm.trans he)
    slack := fun v hv => Option.noConfusion hv
    links := by
      intro k e he v hv
      by_cases hk : k = make_host_keyD w.q (w.hs hid)
      · subst hk
        have h4 := Option.some.inj ((find_mark_active_self w hid).symm.trans he)
        rw [← h4] at hv
        have hv2 : some v ∈ ((alist_find w.q.host_entries_
            (make_host_keyD w.q (w.hs hid))).getD empty_entry).blocked := hv
        cases hf : alist_find w.q.host_entries_ (make_host_keyD w.q (w.hs hid)) with
        | none =>
          rw [hf] at hv2
          cases hv2
        | some ee =>
          rw [hf] at hv2
          have hl := inv.links _ ee hf v hv2
          exact ⟨List.mem_cons_of_mem _ hl.1, (key_of_mark_active w hid v).trans hl.2⟩
      · have hl := inv.links k e ((find_mark_active_ne w hid k hk).symm.trans he) v hv
        exact ⟨List.mem_cons_of_mem _ hl.1, (key_of_mark_active w hid v).trans hl.2⟩
    counts := by
      intro k
      by_cases hk : k = make_host_keyD w.q (w.hs hid)
      · subst hk
        rw [ent_num_mark_active_self w hid, szAdd1_eq _ hltM]
        have hsub : live_active_set (mark_active w hid) (hid :: seen) dead
            (make_host_keyD w.q (w.hs hid)) ⊆
            insert hid (live_active_set w seen dead (make_host_keyD w.q (w.hs hid))) := by
          intro i hi
          rw [mem_live_active_set] at hi
          rcases hi with ⟨hiseen, hidead, hstate, hkey⟩
          rw [Finset.mem_insert]
          by_cases hine : i = hid
          · exact Or.inl hine
          · right
            rw [mem_live_active_set]
            have hiseen' : i ∈ seen := by
              rcases List.mem_cons.mp hiseen with h1 | h1
              · exact absurd h1 hine
              · exact h1
            rw [mark_active_hs_ne w hid i hine] at hstate
            rw [key_of_mark_active w hid i] at hkey
            exact ⟨hiseen', hidead, hstate, hkey⟩
        calc (live_active_set (mark_active w hid) (hid :: seen) dead
            (make_host_keyD w.q (w.hs hid))).card
            ≤ (insert hid (live_active_set w seen dead
                (make_host_keyD w.q (w.hs hid)))).card := Finset.card_le_card hsub
          _ ≤ (live_active_set w seen dead (make_host_keyD w.q (w.hs hid))).card + 1 :=
              Finset.card_insert_le _ _
          _ ≤ ent_num w (make_host_keyD w.q (w.hs hid)) + 1 :=
              Nat.add_le_add_right (inv.counts _) 1
      · rw [ent_num_mark_active_ne w hid k hk]
        have hsub : live_active_set (mark_active w hid) (hid :: seen) dead k ⊆
            live_active_set w seen dead k := by
          intro i hi
          rw [mem_live_active_set] at hi ⊢
          rcases hi with ⟨hiseen, hidead, hstate, hkey⟩
          have hine : i ≠ hid := by
            intro hh
            rw [hh, key_of_mark_active w hid hid] at hkey
            exact hk (((key_of_eq w hid).symm.trans hkey).symm)
          have hiseen' : i ∈ seen := by
            rcases List.mem_cons.mp hiseen with h1 | h1
            · exact absurd h1 hine
            · exact h1
          rw [mark_active_hs_ne w hid i hine] at hstate
          rw [key_of_mark_active w hid i] at hkey
          exact ⟨hiseen', hidead, hstate, hkey⟩
        exact le_trans (Finset.card_le_card hsub) (inv.counts k)
    fresh_none := by
      intro h hh
      have h1 : h ∉ seen := fun hc => hh (List.mem_cons_of_mem _ hc)
      have h2 : h ≠ hid := fun hc => hh (hc ▸ List.mem_cons_self _ _)
      rw [mark_active_hs_ne w hid h h2]
      exact inv.fresh_none h h1 }

theorem rgb_ent1_num_eq (w : World) (hid : Nat) :
    (rgb_ent1 w hid).num_active = szSub1 (rgb_ent0 w hid).num_active := by
  unfold rgb_ent1
  rfl

theorem live_active_release_sub (w w' : World) (seen dead : List Nat) (hid : Nat)
    (k : String)
    (hstate : ∀ i, (w'.hs i).dispatch_state = (w.hs i).dispatch_state)
    (hkey : ∀ i, key_of w' i = key_of w i) :
    live_active_set w' (hid :: seen) (hid :: dead) k ⊆
      (live_active_set w seen dead k).erase hid := by
  intro i hi
  rw [mem_live_active_set] at hi
  rcases hi with ⟨hiseen, hidead, hstate_i, hkey_i⟩
  have hine : i ≠ hid := fun hh => hidead (hh ▸ List.mem_cons_self _ _)
  have hiseen' : i ∈ seen := by
    rcases List.mem_cons.mp hiseen with h | h
    · exact absurd h hine
    · exact h
  have hidead' : i ∉ dead := fun hc => hidead (List.mem_cons_of_mem _ hc)
  rw [Finset.mem_erase]
  refine ⟨hine, ?_⟩
  rw [mem_live_active_set]
  exact ⟨hiseen', hidead', (hstate i).symm.trans hstate_i, (hkey i).symm.trans hkey_i⟩

theorem hid_notin_live_active (w : World) (seen dead : List Nat) (hid : Nat) (k : String)
    (hk : k ≠ key_of w hid) : hid ∉ live_active_set w seen dead k := by
  intro hmem
  rw [mem_live_active_set] at hmem
  exact hk hmem.2.2.2.symm

theorem live_active_card_release_self (w w' : World) (seen dead : List Nat) (hid : Nat)
    (hstate : ∀ i, (w'.hs i).dispatch_state = (w.hs i).dispatch_state)
    (hkey : ∀ i, key_of w' i = key_of w i)
    (hmem : hid ∈ live_active_set w seen dead (key_of w hid)) :
    (live_active_set w' (hid :: seen) (hid :: dead) (key_of w hid)).card ≤
      (live_active_set w seen dead (key_of w hid)).card - 1 := by
  have h1 := Finset.card_le_card
    (live_active_release_sub w w' seen dead hid (key_of w hid) hstate hkey)
  rw [Finset.card_erase_of_mem hmem] at h1
  exact h1

theorem live_active_card_release_ne (w w' : World) (seen dead : List Nat) (hid : Nat)
    (k : String)
    (hstate : ∀ i, (w'.hs i).dispatch_state = (w.hs i).dispatch_state)
    (hkey : ∀ i, key_of w' i = key_of w i) :
    (live_active_set w' (hid :: seen) (hid :: dead) k).card ≤
      (live_active_set w seen dead k).card :=
  le_trans (Finset.card_le_card
    (live_active_release_sub w w' seen dead hid k hstate hkey)) Finset.card_erase_le

/-- The world produced by the promotion branch of `release_active`: handle
removed from the registry, stale prefix dropped with the waiter's link, and
the waiter's `blocked_link` flag cleared. -/
def promote_world (w : World) (hid wid : Nat) (rest : List (Option Nat)) : World :=
  { q := { w.q with
      downstreams_ := w.q.downstreams_.erase hid,
      host_entries_ :=
        (remove_host_entry_if_empty { rgb_ent1 w hid with blocked := rest }
          (alist_set w.q.host_entries_ (key_of w hid)
            { rgb_ent1 w hid with blocked := rest })
          (key_of w hid)).2 },
    hs := fun i => if i = wid then { w.hs wid with blocked_link := false }
      else w.hs i }

theorem rgb_eq_promote_pw (w : World) (hid : Nat) (wid : Nat) (rest : List (Option Nat))
    (hact : (w.hs hid).dispatch_state = DISPATCH_ACTIVE)
    (hcond : ¬((rgb_ent1 w hid).blocked = [] ∧ (rgb_ent1 w hid).num_active = 0))
    (hcap : ¬(w.q.conn_max_per_host_ ≤ (rgb_ent1 w hid).num_active))
    (hscan : scan_blocked (rgb_ent1 w hid).blocked = (some wid, rest)) :
    remove_and_get_blocked w hid = (promote_world w hid wid rest, some wid) :=
  rgb_eq_promote w hid wid rest hact hcond hcap hscan

theorem promote_world_state (w : World) (hid wid : Nat) (rest : List (Option Nat))
    (i : Nat) :
    ((promote_world w hid wid rest).hs i).dispatch_state = (w.hs i).dispatch_state := by
  show (if i = wid then { w.hs wid with blocked_link := false }
    else w.hs i).dispatch_state = (w.hs i).dispatch_state
  by_cases h : i = wid
  · rw [if_pos h, h]
  · rw [if_neg h]

theorem promote_world_auth (w : World) (hid wid : Nat) (rest : List (Option Nat))
    (i : Nat) :
    ((promote_world w hid wid rest).hs i).request_http2_authority =
      (w.hs i).request_http2_authority := by
  show (if i = wid then { w.hs wid with blocked_link := false }
    else w.hs i).request_http2_authority = (w.hs i).request_http2_authority
  by_cases h : i = wid
  · rw [if_pos h, h]
  · rw [if_neg h]

theorem promote_world_key (w : World) (hid wid : Nat) (rest : List (Option Nat))
    (i : Nat) :
    key_of (promote_world w hid wid rest) i = key_of w i :=
  key_of_congr _ w i rfl (promote_world_auth w hid wid rest i)

theorem promote_world_entries (w : World) (hid wid : Nat) (rest : List (Option Nat)) :
    (promote_world w hid wid rest).q.host_entries_ =
      (remove_host_entry_if_empty { rgb_ent1 w hid with blocked := rest }
        (alist_set w.q.host_entries_ (key_of w hid)
          { rgb_ent1 w hid with blocked := rest })
        (key_of w hid)).2 := rfl

theorem c1_inv_release (w : World) (p : Option Nat) (seen dead : List Nat) (cap : Nat)
    (hid : Nat) (inv : C1Inv w p seen dead cap) (hdead : hid ∉ dead) :
    C1Inv (remove_and_get_blocked w hid).1 (remove_and_get_blocked w hid).2
      (hid :: seen) (hid :: dead) cap := by
  by_cases hact : (w.hs hid).dispatch_state = DISPATCH_ACTIVE
  · have hidseen : hid ∈ seen := by
      by_contra hns
      rw [inv.fresh_none hid hns] at hact
      cases hact
    have hmem : hid ∈ live_active_set w seen dead (key_of w hid) := by
      rw [mem_live_active_set]
      exact ⟨hidseen, hdead, hact, rfl⟩
    have hcard1 : 1 ≤ (live_active_set w seen dead (key_of w hid)).card :=
      Finset.card_pos.mpr ⟨hid, hmem⟩
    have hnum1 : 1 ≤ ent_num w (key_of w hid) := le_trans hcard1 (inv.counts _)
    cases hfind : alist_find w.q.host_entries_ (key_of w hid) with
    | none =>
      rw [ent_num_of_none w _ hfind] at hnum1
      exact absurd hnum1 (by omega)
    | some e0 =>
      have he0 : rgb_ent0 w hid = e0 := rgb_ent0_some w hid e0 hfind
      have hnum_e0 : ent_num w (key_of w hid) = e0.num_active := ent_num_of_find w _ e0 hfind
      have hb_e0 : 1 ≤ e0.num_active := hnum_e0 ▸ hnum1
      have hcap_e0 : e0.num_active ≤ cap := inv.bounded _ e0 hfind
      have hn1 : (rgb_ent1 w hid).num_active = e0.num_active - 1 := by
        rw [rgb_ent1_num_eq, he0, szSub1_eq e0.num_active hb_e0 (le_trans hcap_e0 inv.hcapM)]
      have hbl1 : (rgb_ent1 w hid).blocked = e0.blocked := by
        rw [rgb_ent1_blocked_eq, he0]
      by_cases hcond : (rgb_ent1 w hid).blocked = [] ∧ (rgb_ent1 w hid).num_active = 0
      · -- the entry became empty and is erased
        have he01 : e0.num_active = 1 := by
          have hz := hcond.2
          rw [hn1] at hz
          omega
        rw [rgb_eq_erase w hid hact hcond]
        exact
        { hcap_eq := inv.hcap_eq, hcap1 := inv.hcap1, hcapM := inv.hcapM
          nodup_keys := alist_nodup_erase _ _ (alist_nodup_set _ _ _ inv.nodup_keys)
          slack := fun v hv => Option.noConfusion hv
          bounded := by
            intro k e he
            by_cases hk : k = key_of w hid
            · rw [hk] at he
              exact Option.noConfusion ((alist_find_erase_self (rgb_m1 w hid)
                (key_of w hid) (alist_nodup_set _ _ _ inv.nodup_keys)).symm.trans he)
            · have h2 := (alist_find_erase_ne (rgb_m1 w hid) (key_of w hid) k hk).symm.trans
                he
              exact inv.bounded k e ((alist_find_set_ne _ _ _ _ hk).symm.trans h2)
          links := by
            intro k e he v hv
            by_cases hk : k = key_of w hid
            · rw [hk] at he
              exact Option.noConfusion ((alist_find_erase_self (rgb_m1 w hid)
                (key_of w hid) (alist_nodup_set _ _ _ inv.nodup_keys)).symm.trans he)
            · have h2 := (alist_find_erase_ne (rgb_m1 w hid) (key_of w hid) k hk).symm.trans
                he
              have hl := inv.links k e ((alist_find_set_ne _ _ _ _ hk).symm.trans h2) v hv
              exact ⟨List.mem_cons_of_mem _ hl.1, hl.2⟩
          counts := by
            intro k
            by_cases hk : k = key_of w hid
            · rw [hk]
              refine le_trans (live_active_card_release_self w _ seen dead hid
                (fun i => rfl) (fun i => rfl) hmem) ?_
              have hc := inv.counts (key_of w hid)
              rw [hnum_e0] at hc
              exact le_trans (by omega) (Nat.zero_le _)
            · refine le_trans (live_active_card_release_ne w _ seen dead hid k
                (fun i => rfl) (fun i => rfl)) ?_
              refine le_of_le_of_eq (inv.counts k) ?_
              show ent_num w k = ((alist_find (alist_erase (rgb_m1 w hid) (key_of w hid))
                k).getD empty_entry).num_active
              rw [alist_find_erase_ne (rgb_m1 w hid) (key_of w hid) k hk,
                show alist_find (rgb_m1 w hid) k = alist_find w.q.host_entries_ k from
                  alist_find_set_ne _ _ _ _ hk]
              rfl
          fresh_none := by
            intro h hh
            exact inv.fresh_none h (fun hc => hh (List.mem_cons_of_mem _ hc)) }
      · by_cases hcap : w.q.conn_max_per_host_ ≤ (rgb_ent1 w hid).num_active
        · -- still at or above the cap: no promotion
          rw [rgb_eq_capfull w hid hact hcond hcap]
          exact
          { hcap_eq := inv.hcap_eq, hcap1 := inv.hcap1, hcapM := inv.hcapM
            nodup_keys := alist_nodup_set _ _ _ inv.nodup_keys
            slack := fun v hv => Option.noConfusion hv
            bounded := by
              intro k e he
              by_cases hk : k = key_of w hid
              · rw [hk] at he
                have h4 := Option.some.inj ((alist_find_set_self w.q.host_entries_
                  (key_of w hid) (rgb_ent1 w hid)).symm.trans he)
                rw [← h4, hn1]
                omega
              · exact inv.bounded k e ((alist_find_set_ne _ _ _ _ hk).symm.trans he)
            links := by
              intro k e he v hv
              by_cases hk : k = key_of w hid
              · rw [hk] at he
                have h4 := Option.some.inj ((alist_find_set_self w.q.host_entries_
                  (key_of w hid) (rgb_ent1 w hid)).symm.trans he)
                rw [← h4, hbl1] at hv
                have hl := inv.links _ e0 hfind v hv
                exact ⟨List.mem_cons_of_mem _ hl.1, hl.2.trans hk.symm⟩
              · have hl := inv.links k e ((alist_find_set_ne _ _ _ _ hk).symm.trans he) v hv
                exact ⟨List.mem_cons_of_mem _ hl.1, hl.2⟩
            counts := by
              intro k
              by_cases hk : k = key_of w hid
              · rw [hk]
                refine le_trans (live_active_card_release_self w _ seen dead hid
                  (fun i => rfl) (fun i => rfl) hmem) ?_
                have hc := inv.counts (key_of w hid)
                rw [hnum_e0] at hc
                refine le_of_le_of_eq (by omega :
                  (live_active_set w seen dead (key_of w hid)).card - 1
                    ≤ e0.num_active - 1) ?_
                show e0.num_active - 1 = ((alist_find (rgb_m1 w hid)
                  (key_of w hid)).getD empty_entry).num_active
                rw [show alist_find (rgb_m1 w hid) (key_of w hid) =
                  some (rgb_ent1 w hid) from alist_find_set_self _ _ _]
                show e0.num_active - 1 = (rgb_ent1 w hid).num_active
                rw [hn1]
              · refine le_trans (live_active_card_release_ne w _ seen dead hid k
                  (fun i => rfl) (fun i => rfl)) ?_
                refine le_of_le_of_eq (inv.counts k) ?_
                show ent_num w k = ((alist_find (rgb_m1 w hid) k).getD
                  empty_entry).num_active
                rw [show alist_find (rgb_m1 w hid) k = alist_find w.q.host_entries_ k from
                  alist_find_set_ne _ _ _ _ hk]
                rfl
            fresh_none := by
              intro h hh
              exact inv.fresh_none h (fun hc => hh (List.mem_cons_of_mem _ hc)) }
        · -- capacity freed: scan the blocked list
          rcases hscan : scan_blocked (rgb_ent1 w hid).blocked with ⟨r, rest⟩
          cases r with
          | none =>
            have hrest : rest = [] := (scan_blocked_none_eq _ _ hscan).1
            rw [rgb_eq_exhaust w hid rest hact hcond hcap hscan]
            exact
            { hcap_eq := inv.hcap_eq, hcap1 := inv.hcap1, hcapM := inv.hcapM
              nodup_keys := alist_nodup_set _ _ _ inv.nodup_keys
              slack := fun v hv => Option.noConfusion hv
              bounded := by
                intro k e he
                by_cases hk : k = key_of w hid
                · rw [hk] at he
                  have h4 := Option.some.inj ((alist_find_set_self w.q.host_entries_
                    (key_of w hid) { rgb_ent1 w hid with blocked := rest }).symm.trans he)
                  rw [← h4]
                  show (rgb_ent1 w hid).num_active ≤ cap
                  rw [hn1]
                  omega
                · exact inv.bounded k e ((alist_find_set_ne _ _ _ _ hk).symm.trans he)
              links := by
                intro k e he v hv
                by_cases hk : k = key_of w hid
                · rw [hk] at he
                  have h4 := Option.some.inj ((alist_find_set_self w.q.host_entries_
                    (key_of w hid) { rgb_ent1 w hid with blocked := rest }).symm.trans he)
                  rw [← h4] at hv
                  have hv2 : some v ∈ rest := hv
                  rw [hrest] at hv2
                  cases hv2
                · have hl := inv.links k e ((alist_find_set_ne _ _ _ _ hk).symm.trans he)
                    v hv
                  exact ⟨List.mem_cons_of_mem _ hl.1, hl.2⟩
              counts := by
                intro k
                by_cases hk : k = key_of w hid
                · rw [hk]
                  refine le_trans (live_active_card_release_self w _ seen dead hid
                    (fun i => rfl) (fun i => rfl) hmem) ?_
                  have hc := inv.counts (key_of w hid)
                  rw [hnum_e0] at hc
                  refine le_of_le_of_eq (by omega :
                    (live_active_set w seen dead (key_of w hid)).card - 1
                      ≤ e0.num_active - 1) ?_
                  show e0.num_active - 1 = ((alist_find (alist_set w.q.host_entries_
                    (key_of w hid) { rgb_ent1 w hid with blocked := rest })
                    (key_of w hid)).getD empty_entry).num_active
                  rw [alist_find_set_self]
                  show e0.num_active - 1 = (rgb_ent1 w hid).num_active
                  rw [hn1]
                · refine le_trans (live_active_card_release_ne w _ seen dead hid k
                    (fun i => rfl) (fun i => rfl)) ?_
                  refine le_of_le_of_eq (inv.counts k) ?_
                  show ent_num w k = ((alist_find (alist_set w.q.host_entries_
                    (key_of w hid) { rgb_ent1 w hid with blocked := rest }) k).getD
                    empty_entry).num_active
                  rw [alist_find_set_ne _ _ _ _ hk]
                  rfl
              fresh_none := by
                intro h hh
                exact inv.fresh_none h (fun hc => hh (List.mem_cons_of_mem _ hc)) }
          | some wid =>
            have hwid_mem : some wid ∈ e0.blocked := by
              rw [← hbl1]
              exact scan_blocked_some_mem _ _ _ hscan
            have hwid_links := inv.links _ e0 hfind wid hwid_mem
            have hwid_seen : wid ∈ seen := hwid_links.1
            have hwid_key : key_of w wid = key_of w hid := hwid_links.2
            rw [rgb_eq_promote_pw w hid wid rest hact hcond hcap hscan]
            show C1Inv (promote_world w hid wid rest) (some wid)
              (hid :: seen) (hid :: dead) cap
            exact
            { hcap_eq := inv.hcap_eq, hcap1 := inv.hcap1, hcapM := inv.hcapM
              nodup_keys := by
                rw [promote_world_entries]
                unfold remove_host_entry_if_empty
                by_cases hc2 : ({ rgb_ent1 w hid with blocked := rest } :
                    HostEntry).blocked = [] ∧
                    ({ rgb_ent1 w hid with blocked := rest } : HostEntry).num_active = 0
                · rw [if_pos hc2]
                  exact alist_nodup_erase _ _ (alist_nodup_set _ _ _ inv.nodup_keys)
                · rw [if_neg hc2]
                  exact alist_nodup_set _ _ _ inv.nodup_keys
              slack := by
                intro v hv e he
                have hv2 : wid = v := Option.some.inj hv
                rw [promote_world_key, ← hv2, hwid_key, promote_world_entries] at he
                by_cases hc2 : ({ rgb_ent1 w hid with blocked := rest } :
                    HostEntry).blocked = [] ∧
                    ({ rgb_ent1 w hid with blocked := rest } : HostEntry).num_active = 0
                · exact Option.noConfusion
                    ((find_rhie_self_empty _ _ _ inv.nodup_keys hc2).symm.trans he)
                · have h4 := Option.some.inj ((find_rhie_self_keep _ _ _ hc2).symm.trans
                    he)
                  rw [← h4]
                  show (rgb_ent1 w hid).num_active < cap
                  rw [← inv.hcap_eq]
                  omega
              bounded := by
                intro k e he
                rw [promote_world_entries] at he
                by_cases hk : k = key_of w hid
                · rw [hk] at he
                  by_cases hc2 : ({ rgb_ent1 w hid with blocked := rest } :
                      HostEntry).blocked = [] ∧
                      ({ rgb_ent1 w hid with blocked := rest } : HostEntry).num_active = 0
                  · exact Option.noConfusion
                      ((find_rhie_self_empty _ _ _ inv.nodup_keys hc2).symm.trans he)
                  · have h4 := Option.some.inj ((find_rhie_self_keep _ _ _ hc2).symm.trans
                      he)
                    rw [← h4]
                    show (rgb_ent1 w hid).num_active ≤ cap
                    rw [hn1]
                    omega
                · exact inv.bounded k e ((find_rhie_ne _ _ _ _ hk).symm.trans he)
              links := by
                intro k e he v hv
                rw [promote_world_entries] at he
                by_cases hk : k = key_of w hid
                · rw [hk] at he
                  by_cases hc2 : ({ rgb_ent1 w hid with blocked := rest } :
                      HostEntry).blocked = [] ∧
                      ({ rgb_ent1 w hid with blocked := rest } : HostEntry).num_active = 0
                  · exact Option.noConfusion
                      ((find_rhie_self_empty _ _ _ inv.nodup_keys hc2).symm.trans he)
                  · have h4 := Option.some.inj ((find_rhie_self_keep _ _ _ hc2).symm.trans
                      he)
                    rw [← h4] at hv
                    have hv2 : some v ∈ rest := hv
                    have hv3 : some v ∈ (rgb_ent1 w hid).blocked :=
                      scan_blocked_some_sub _ _ _ hscan (some v) hv2
                    rw [hbl1] at hv3
                    have hl := inv.links _ e0 hfind v hv3
                    refine ⟨List.mem_cons_of_mem _ hl.1, ?_⟩
                    rw [promote_world_key]
                    exact hl.2.trans hk.symm
                · have hl := inv.links k e ((find_rhie_ne _ _ _ _ hk).symm.trans he) v hv
                  refine ⟨List.mem_cons_of_mem _ hl.1, ?_⟩
                  rw [promote_world_key]
                  exact hl.2
              counts := by
                intro k
                by_cases hk : k = key_of w hid
                · rw [hk]
                  refine le_trans (live_active_card_release_self w
                    (promote_world w hid wid rest) seen dead hid
                    (promote_world_state w hid wid rest)
                    (promote_world_key w hid wid rest) hmem) ?_
                  have hc := inv.counts (key_of w hid)
                  rw [hnum_e0] at hc
                  by_cases hc2 : ({ rgb_ent1 w hid with blocked := rest } :
                      HostEntry).blocked = [] ∧
                      ({ rgb_ent1 w hid with blocked := rest } : HostEntry).num_active = 0
                  · have hz : (rgb_ent1 w hid).num_active = 0 := hc2.2
                    refine le_of_le_of_eq (by omega :
                      (live_active_set w seen dead (key_of w hid)).card - 1 ≤ 0) ?_
                    refine (ent_num_of_none (promote_world w hid wid rest) _ ?_).symm
                    rw [promote_world_entries]
                    exact find_rhie_self_empty _ _ _ inv.nodup_keys hc2
                  · refine le_of_le_of_eq (by omega :
                      (live_active_set w seen dead (key_of w hid)).card - 1
                        ≤ e0.num_active - 1) ?_
                    have hfind2 : alist_find (promote_world w hid wid rest).q.host_entries_
                        (key_of w hid) =
                        some { rgb_ent1 w hid with blocked := rest } := by
                      rw [promote_world_entries]
                      exact find_rhie_self_keep _ _ _ hc2
                    rw [ent_num_of_find _ _ _ hfind2]
                    show e0.num_active - 1 = (rgb_ent1 w hid).num_active
                    rw [hn1]
                · refine le_trans (live_active_card_release_ne w
                    (promote_world w hid wid rest) seen dead hid k
                    (promote_world_state w hid wid rest)
                    (promote_world_key w hid wid rest)) ?_
                  refine le_of_le_of_eq (inv.counts k) ?_
                  unfold ent_num
                  rw [promote_world_entries, find_rhie_ne _ _ _ _ hk]
              fresh_none := by
                intro h hh
                rw [promote_world_state]
                exact inv.fresh_none h (fun hc => hh (List.mem_cons_of_mem _ hc)) }
  · rw [rgb_not_active w hid hact]
    exact
    { hcap_eq := inv.hcap_eq, hcap1 := inv.hcap1, hcapM := inv.hcapM
      nodup_keys := inv.nodup_keys
      bounded := fun k e he => inv.bounded k e he
      slack := fun v hv => Option.noConfusion hv
      links := by
        intro k e he v hv
        have hl := inv.links k e he v hv
        exact ⟨List.mem_cons_of_mem _ hl.1, hl.2⟩
      counts := by
        intro k
        refine le_trans (live_active_card_release_ne w _ seen dead hid k
          (fun i => rfl) (fun i => rfl)) ?_
        exact inv.counts k
      fresh_none := by
        intro h hh
        exact inv.fresh_none h (fun hc => hh (List.mem_cons_of_mem _ hc)) }
theorem wf_ops_append (pre : List Op) :
    ∀ (seen dead : List Nat) (suf : List Op),
      wf_ops seen dead (pre ++ suf) = true → wf_ops seen dead pre = true := by
  induction pre with
  | nil =>
    intro seen dead suf _
    rfl
  | cons op rest ih =>
    intro seen dead suf h
    cases op <;>
      (simp only [List.cons_append, wf_ops, Op.hid, Bool.and_eq_true] at h ⊢;
       exact ⟨h.1, ih _ _ _ h.2⟩)

theorem gated_ops_append (pre : List Op) :
    ∀ (w : World) (p : Option Nat) (suf : List Op),
      gated_ops w p (pre ++ suf) = true → gated_ops w p pre = true := by
  induction pre with
  | nil =>
    intro w p suf _
    rfl
  | cons op rest ih =>
    intro w p suf h
    simp only [List.cons_append, gated_ops, Bool.and_eq_true] at h ⊢
    exact ⟨h.1, ih _ _ _ h.2⟩

theorem c1_run (ops : List Op) :
    ∀ (w : World) (p : Option Nat) (seen dead : List Nat) (cap : Nat),
      C1Inv w p seen dead cap → wf_ops seen dead ops = true →
      gated_ops w p ops = true →
      ∀ k e, alist_find (run w ops).q.host_entries_ k = some e → e.num_active ≤ cap := by
  induction ops with
  | nil =>
    intro w p seen dead cap inv _ _ k e he
    exact inv.bounded k e he
  | cons op rest ih =>
    intro w p seen dead cap inv hwf hg
    cases op with
    | submit hid auth =>
      simp only [wf_ops, gated_ops, Bool.true_and, Bool.and_eq_true,
        decide_eq_true_eq] at hwf hg
      exact ih (add_pending w hid auth) none (hid :: seen) dead cap
        (c1_inv_submit w p seen dead cap hid auth inv hwf.1) hwf.2 hg
    | failure_of hid =>
      simp only [wf_ops, gated_ops, Op.hid, Bool.true_and, Bool.and_eq_true,
        decide_eq_true_eq] at hwf hg
      exact ih (mark_failure w hid) none (hid :: seen) dead cap
        (c1_inv_failure w p seen dead cap hid inv) hwf.2 hg
    | activate hid =>
      simp only [wf_ops, gated_ops, Op.hid, Bool.true_and, Bool.and_eq_true,
        Bool.or_eq_true, decide_eq_true_eq] at hwf hg
      exact ih (mark_active w hid) none (hid :: seen) dead cap
        (c1_inv_activate w p seen dead cap hid inv hg.1) hwf.2 hg.2
    | block hid =>
      simp only [wf_ops, gated_ops, Op.hid, Bool.true_and, Bool.and_eq_true,
        decide_eq_true_eq] at hwf hg
      exact ih (mark_blocked w hid) none (hid :: seen) dead cap
        (c1_inv_blocked w p seen dead cap hid inv) hwf.2 hg
    | release hid =>
      simp only [wf_ops, gated_ops, Op.hid, Bool.true_and, Bool.and_eq_true,
        decide_eq_true_eq] at hwf hg
      exact ih (remove_and_get_blocked w hid).1 (remove_and_get_blocked w hid).2
        (hid :: seen) (hid :: dead) cap
        (c1_inv_release w p seen dead cap hid inv hwf.1) hwf.2 hg

theorem c1_inv_init (cap : Nat) (u : Bool) (hcap1 : 1 ≤ cap) (hcapM : cap ≤ size_t_max) :
    C1Inv (World.init cap u) none [] [] cap where
  hcap_eq := by
    show (if cap = 0 then size_t_max else cap) = cap
    rw [if_neg (by omega)]
  hcap1 := hcap1
  hcapM := hcapM
  nodup_keys := List.nodup_nil
  bounded := fun _ _ he => Option.noConfusion he
  slack := fun _ hv => Option.noConfusion hv
  links := fun _ _ he => Option.noConfusion he
  counts := by
    intro k
    have h0 : live_active_set (World.init cap u) [] [] k = ∅ := rfl
    rw [h0, Finset.card_empty]
    exact Nat.zero_le _
  fresh_none := fun _ _ => rfl

/-- C1: starting from an empty queue constructed with a positive cap, along any
well-formed call sequence (fresh submits, no use after release) in which every
`mark_active` is gated -- issued while `can_activate` holds for the handle's
destination, or applied to the waiter the immediately preceding
`remove_and_get_blocked` returned -- every destination's `num_active` counter is
at most the cap at every point of the sequence (after any prefix `pre`). -/
theorem c1_cap_invariant (cap : Nat) (u : Bool) (pre suf : List Op) (k : String)
    (e : HostEntry) (hcap1 : 1 ≤ cap) (hcapM : cap ≤ size_t_max)
    (hwf : wf_ops [] [] (pre ++ suf) = true)
    (hg : gated_ops (World.init cap u) none (pre ++ suf) = true)
    (he : alist_find (run (World.init cap u) pre).q.host_entries_ k = some e) :
    e.num_active ≤ cap :=
  c1_run pre (World.init cap u) none [] [] cap (c1_inv_init cap u hcap1 hcapM)
    (wf_ops_append pre [] [] suf hwf) (gated_ops_append pre (World.init cap u) none suf hg)
    k e he

theorem c1_witness :
    (1 ≤ 1 ∧ 1 ≤ size_t_max ∧
      wf_ops [] [] ([Op.submit 0 "a", Op.activate 0] ++ [Op.release 0]) = true ∧
      gated_ops (World.init 1 false) none
        ([Op.submit 0 "a", Op.activate 0] ++ [Op.release 0]) = true ∧
      alist_find (run (World.init 1 false)
        [Op.submit 0 "a", Op.activate 0]).q.host_entries_ "a" =
        some { num_active := 1, blocked := [] }) ∧
    ({ num_active := 1, blocked := [] } : HostEntry).num_active ≤ 1 :=
  ⟨⟨by decide, by decide, by decide, by decide, by decide⟩,
    c1_cap_invariant 1 false [Op.submit 0 "a", Op.activate 0] [Op.release 0] "a"
      { num_active := 1, blocked := [] } (by decide) (by decide) (by decide) (by decide)
      (by decide)⟩
/-- A well-formed call sequence in which the only submitted handle is released:
submit 0, block it, then release it while still BLOCKED. -/
def c7ops : List Op := [Op.submit 0 hostx, Op.block 0, Op.release 0]

/-- The number of registered handles that are ACTIVE for destination `k`,
counted over an explicit id list. -/
def is_active_for (w : World) (k : String) (h : Nat) : Bool :=
  decide ((w.hs h).dispatch_state = DISPATCH_ACTIVE ∧ key_of w h = k)

def active_countL (w : World) (l : List Nat) (k : String) : Nat :=
  l.countP (is_active_for w k)

/-- The number of registry members that are ACTIVE for destination `k`. -/
def active_count (w : World) (k : String) : Nat :=
  active_countL w w.q.downstreams_ k

theorem countP_ext (l : List Nat) (p q : Nat → Bool) (h : ∀ x ∈ l, p x = q x) :
    l.countP p = l.countP q := by
  induction l with
  | nil => rfl
  | cons a t ih =>
    rw [List.countP_cons, List.countP_cons, h a (List.mem_cons_self a t),
      ih (fun x hx => h x (List.mem_cons_of_mem a hx))]

theorem countP_erase_of_mem (l : List Nat) (a : Nat) (p : Nat → Bool) (hm : a ∈ l) :
    l.countP p = (l.erase a).countP p + (if p a then 1 else 0) := by
  have hperm : l.Perm (a :: l.erase a) := List.perm_cons_erase hm
  rw [hperm.countP_eq, List.countP_cons]

theorem countP_flip (l : List Nat) (a : Nat) (p q : Nat → Bool) (hnd : l.Nodup)
    (hm : a ∈ l) (hsame : ∀ x ∈ l, x ≠ a → q x = p x) (hold : p a = false)
    (hnew : q a = true) : l.countP q = l.countP p + 1 := by
  have he : (l.erase a).countP q = (l.erase a).countP p :=
    countP_ext _ _ _ (fun x hx =>
      hsame x (List.mem_of_mem_erase hx) ((List.Nodup.mem_erase_iff hnd).mp hx).1)
  rw [countP_erase_of_mem l a q hm, countP_erase_of_mem l a p hm, hold, hnew, he]
  simp

theorem is_active_for_congr (w' w : World) (k : String) (x : Nat)
    (hst : (w'.hs x).dispatch_state = (w.hs x).dispatch_state)
    (hky : key_of w' x = key_of w x) :
    is_active_for w' k x = is_active_for w k x := by
  unfold is_active_for
  rw [hst, hky]

theorem is_active_for_true (w : World) (k : String) (x : Nat)
    (h1 : (w.hs x).dispatch_state = DISPATCH_ACTIVE) (h2 : key_of w x = k) :
    is_active_for w k x = true := by
  unfold is_active_for
  rw [h1, h2]
  exact decide_eq_true ⟨rfl, rfl⟩

theorem is_active_for_false_state (w : World) (k : String) (x : Nat)
    (h1 : (w.hs x).dispatch_state ≠ DISPATCH_ACTIVE) :
    is_active_for w k x = false := by
  unfold is_active_for
  exact decide_eq_false (fun hc => h1 hc.1)

theorem is_active_for_false_key (w : World) (k : String) (x : Nat)
    (h2 : key_of w x ≠ k) : is_active_for w k x = false := by
  unfold is_active_for
  exact decide_eq_false (fun hc => h2 hc.2)

theorem active_countL_congr (w' w : World) (l : List Nat) (k : String)
    (hst : ∀ x ∈ l, (w'.hs x).dispatch_state = (w.hs x).dispatch_state)
    (hky : ∀ x ∈ l, key_of w' x = key_of w x) :
    active_countL w' l k = active_countL w l k :=
  countP_ext l _ _ (fun x hx => is_active_for_congr w' w k x (hst x hx) (hky x hx))

theorem active_countL_append (w : World) (l1 l2 : List Nat) (k : String) :
    active_countL w (l1 ++ l2) k = active_countL w l1 k + active_countL w l2 k :=
  List.countP_append _ _ _

theorem active_countL_le_length (w : World) (l : List Nat) (k : String) :
    active_countL w l k ≤ l.length :=
  List.countP_le_length _

theorem active_countL_erase (w : World) (l : List Nat) (a : Nat) (k : String)
    (hm : a ∈ l) :
    active_countL w l k =
      active_countL w (l.erase a) k + (if is_active_for w k a then 1 else 0) :=
  countP_erase_of_mem l a _ hm
theorem active_countL_ext (w' w : World) (l : List Nat) (k : String)
    (h : ∀ x ∈ l, is_active_for w' k x = is_active_for w k x) :
    active_countL w' l k = active_countL w l k :=
  countP_ext l _ _ h

theorem add_pending_reg (w : World) (hid : Nat) (auth : String) :
    (add_pending w hid auth).q.downstreams_ = w.q.downstreams_ ++ [hid] := rfl

theorem mark_failure_state_self (w : World) (hid : Nat) :
    ((mark_failure w hid).hs hid).dispatch_state = DISPATCH_FAILURE := by
  rw [mark_failure_hs_self]

theorem mark_active_state_self (w : World) (hid : Nat) :
    ((mark_active w hid).hs hid).dispatch_state = DISPATCH_ACTIVE := by
  rw [mark_active_hs_self]

theorem mark_blocked_state_self (w : World) (hid : Nat) :
    ((mark_blocked w hid).hs hid).dispatch_state = DISPATCH_BLOCKED := by
  rw [mark_blocked_hs_self]

/-- The inductive invariant behind the no-leak property, over the states
`valid_ops` reaches: the registry has no duplicates and only seen ids; keys
are unique; every destination's counter equals its number of ACTIVE registry
members; every blocked link is live -- a registered, BLOCKED handle of the
matching key -- and each entry's link list has no duplicates; no entry is
empty; and a just-promoted waiter has no remaining link and is not ACTIVE. -/
structure C7Inv (w : World) (promoted : Option Nat) (seen : List Nat) : Prop where
  reg_nodup : w.q.downstreams_.Nodup
  reg_seen : ∀ h, h ∈ w.q.downstreams_ → h ∈ seen
  nodup_keys : (w.q.host_entries_.map Prod.fst).Nodup
  counts : ∀ k, ent_num w k = active_count w k
  links : ∀ k e, alist_find w.q.host_entries_ k = some e →
    ∀ x, x ∈ e.blocked → ∃ v, x = some v ∧ v ∈ w.q.downstreams_ ∧
      (w.hs v).dispatch_state = DISPATCH_BLOCKED ∧ key_of w v = k
  blocked_nodup : ∀ k e, alist_find w.q.host_entries_ k = some e → e.blocked.Nodup
  nonempty_ent : ∀ k e, alist_find w.q.host_entries_ k = some e →
    ¬(e.blocked = [] ∧ e.num_active = 0)
  promoted_clean : ∀ v, promoted = some v →
    (∀ k e, alist_find w.q.host_entries_ k = some e → some v ∉ e.blocked) ∧
    (w.hs v).dispatch_state ≠ DISPATCH_ACTIVE

theorem c7_inv_submit (w : World) (p : Option Nat) (seen : List Nat) (hid : Nat)
    (auth : String) (inv : C7Inv w p seen) (hfresh : hid ∉ seen) :
    C7Inv (add_pending w hid auth) none (hid :: seen) := by
  have hnotin : hid ∉ w.q.downstreams_ := fun hm => hfresh (inv.reg_seen hid hm)
  exact
  { reg_nodup := by
      show (w.q.downstreams_ ++ [hid]).Nodup
      rw [List.nodup_append]
      refine ⟨inv.reg_nodup, List.nodup_singleton hid, ?_⟩
      intro a ha hb
      rw [List.mem_singleton] at hb
      rw [hb] at ha
      exact hnotin ha
    reg_seen := by
      intro h hm
      have hm2 : h ∈ w.q.downstreams_ ++ [hid] := hm
      rcases List.mem_append.mp hm2 with h1 | h1
      · exact List.mem_cons_of_mem _ (inv.reg_seen h h1)
      · rw [List.mem_singleton] at h1
        rw [h1]
        exact List.mem_cons_self _ _
    nodup_keys := inv.nodup_keys
    counts := by
      intro k
      show ent_num w k =
        active_countL (add_pending w hid auth) (w.q.downstreams_ ++ [hid]) k
      rw [active_countL_append]
      have h1 : active_countL (add_pending w hid auth) w.q.downstreams_ k =
          active_countL w w.q.downstreams_ k :=
        active_countL_ext _ w _ k (fun x hx => is_active_for_congr _ w k x
          (by rw [add_pending_hs_ne w hid auth x (fun hc => hnotin (hc ▸ hx))])
          (key_of_add_pending_ne w hid auth x (fun hc => hnotin (hc ▸ hx))))
      have h2 : active_countL (add_pending w hid auth) [hid] k = 0 := by
        show List.countP _ [hid] = 0
        rw [List.countP_cons, List.countP_nil,
          is_active_for_false_state (add_pending w hid auth) k hid
            (by rw [add_pending_hs_self]; show DISPATCH_PENDING ≠ DISPATCH_ACTIVE; decide)]
        rfl
      rw [h1, h2, Nat.add_zero]
      exact inv.counts k
    links := by
      intro k e he x hx
      obtain ⟨v, hxv, hvm, hvs, hvk⟩ := inv.links k e he x hx
      have hvne : v ≠ hid := fun hc => hnotin (hc ▸ hvm)
      refine ⟨v, hxv, ?_, ?_, ?_⟩
      · show v ∈ w.q.downstreams_ ++ [hid]
        exact List.mem_append_left _ hvm
      · rw [add_pending_hs_ne w hid auth v hvne]
        exact hvs
      · rw [key_of_add_pending_ne w hid auth v hvne]
        exact hvk
    blocked_nodup := inv.blocked_nodup
    nonempty_ent := inv.nonempty_ent
    promoted_clean := fun v hv => Option.noConfusion hv }

theorem c7_inv_failure (w : World) (p : Option Nat) (seen : List Nat) (hid : Nat)
    (inv : C7Inv w p seen)
    (hpend : (w.hs hid).dispatch_state = DISPATCH_PENDING) :
    C7Inv (mark_failure w hid) none (hid :: seen) := by
  exact
  { reg_nodup := inv.reg_nodup
    reg_seen := fun h hm => List.mem_cons_of_mem _ (inv.reg_seen h hm)
    nodup_keys := inv.nodup_keys
    counts := by
      intro k
      show ent_num w k = active_countL (mark_failure w hid) w.q.downstreams_ k
      rw [active_countL_ext (mark_failure w hid) w w.q.downstreams_ k ?_]
      · exact inv.counts k
      · intro x hx
        by_cases hxh : x = hid
        · rw [hxh,
            is_active_for_false_state (mark_failure w hid) k hid
              (by rw [mark_failure_state_self]; decide),
            is_active_for_false_state w k hid (by rw [hpend]; decide)]
        · exact is_active_for_congr _ w k x
            (by rw [mark_failure_hs_ne w hid x hxh]) (key_of_mark_failure w hid x)
    links := by
      intro k e he x hx
      obtain ⟨v, hxv, hvm, hvs, hvk⟩ := inv.links k e he x hx
      have hvne : v ≠ hid := fun hc => by
        rw [hc, hpend] at hvs
        cases hvs
      refine ⟨v, hxv, hvm, ?_, ?_⟩
      · rw [mark_failure_hs_ne w hid v hvne]
        exact hvs
      · rw [key_of_mark_failure w hid v]
        exact hvk
    blocked_nodup := inv.blocked_nodup
    nonempty_ent := inv.nonempty_ent
    promoted_clean := fun v hv => Option.noConfusion hv }
theorem c7_inv_blocked (w : World) (p : Option Nat) (seen : List Nat) (hid : Nat)
    (inv : C7Inv w p seen) (hmem : hid ∈ w.q.downstreams_)
    (hpend : (w.hs hid).dispatch_state = DISPATCH_PENDING) :
    C7Inv (mark_blocked w hid) none (hid :: seen) := by
  have hold : ∀ x ∈ ((alist_find w.q.host_entries_
      (make_host_keyD w.q (w.hs hid))).getD empty_entry).blocked,
      ∃ v, x = some v ∧ v ∈ w.q.downstreams_ ∧
        (w.hs v).dispatch_state = DISPATCH_BLOCKED ∧
        key_of w v = make_host_keyD w.q (w.hs hid) := by
    intro x hx
    cases hf : alist_find w.q.host_entries_ (make_host_keyD w.q (w.hs hid)) with
    | none =>
      rw [hf] at hx
      exact absurd hx (List.not_mem_nil x)
    | some e0 =>
      rw [hf] at hx
      exact inv.links _ e0 hf x hx
  have hnolink : some hid ∉ ((alist_find w.q.host_entries_
      (make_host_keyD w.q (w.hs hid))).getD empty_entry).blocked := by
    intro hc
    obtain ⟨v, hxv, hvm, hvs, hvk⟩ := hold (some hid) hc
    have hv : v = hid := Option.some.inj hxv.symm
    rw [hv, hpend] at hvs
    exact absurd hvs (by decide)
  exact
  { reg_nodup := inv.reg_nodup
    reg_seen := fun h hm => List.mem_cons_of_mem _ (inv.reg_seen h hm)
    nodup_keys := alist_nodup_set _ _ _ inv.nodup_keys
    counts := by
      intro k
      rw [ent_num_mark_blocked w hid k]
      show ent_num w k = active_countL (mark_blocked w hid) w.q.downstreams_ k
      rw [active_countL_ext (mark_blocked w hid) w w.q.downstreams_ k ?_]
      · exact inv.counts k
      · intro x hx
        by_cases hxh : x = hid
        · rw [hxh,
            is_active_for_false_state (mark_blocked w hid) k hid
              (by rw [mark_blocked_state_self]; decide),
            is_active_for_false_state w k hid (by rw [hpend]; decide)]
        · exact is_active_for_congr _ w k x
            (by rw [mark_blocked_hs_ne w hid x hxh]) (key_of_mark_blocked w hid x)
    links := by
      intro k e he x hx
      by_cases hk : k = make_host_keyD w.q (w.hs hid)
      · rw [hk] at he
        have h4 := Option.some.inj ((find_mark_blocked_self w hid).symm.trans he)
        rw [← h4] at hx
        have hx2 : x ∈ ((alist_find w.q.host_entries_
            (make_host_keyD w.q (w.hs hid))).getD empty_entry).blocked ++ [some hid] := hx
        rcases List.mem_append.mp hx2 with h5 | h5
        · obtain ⟨v, hxv, hvm, hvs, hvk⟩ := hold x h5
          have hvne : v ≠ hid := by
            intro hc
            rw [hc, hpend] at hvs
            exact absurd hvs (by decide)
          exact ⟨v, hxv, hvm, by rw [mark_blocked_hs_ne w hid v hvne]; exact hvs,
            by rw [key_of_mark_blocked w hid v]; exact hvk.trans hk.symm⟩
        · rw [List.mem_singleton] at h5
          refine ⟨hid, h5, hmem, mark_blocked_state_self w hid, ?_⟩
          rw [key_of_mark_blocked w hid hid, hk]
          rfl
      · rw [find_mark_blocked_ne w hid k hk] at he
        obtain ⟨v, hxv, hvm, hvs, hvk⟩ := inv.links k e he x hx
        have hvne : v ≠ hid := by
          intro hc
          rw [hc, hpend] at hvs
          exact absurd hvs (by decide)
        exact ⟨v, hxv, hvm, by rw [mark_blocked_hs_ne w hid v hvne]; exact hvs,
          by rw [key_of_mark_blocked w hid v]; exact hvk⟩
    blocked_nodup := by
      intro k e he
      by_cases hk : k = make_host_keyD w.q (w.hs hid)
      · rw [hk] at he
        have h4 := Option.some.inj ((find_mark_blocked_self w hid).symm.trans he)
        rw [← h4]
        show (((alist_find w.q.host_entries_ (make_host_keyD w.q (w.hs hid))).getD
          empty_entry).blocked ++ [some hid]).Nodup
        rw [List.nodup_append]
        refine ⟨?_, List.nodup_singleton _, ?_⟩
        · cases hf : alist_find w.q.host_entries_ (make_host_keyD w.q (w.hs hid)) with
          | none => exact List.nodup_nil
          | some e0 => exact inv.blocked_nodup _ e0 hf
        · intro a ha hb
          rw [List.mem_singleton] at hb
          rw [hb] at ha
          exact hnolink ha
      · rw [find_mark_blocked_ne w hid k hk] at he
        exact inv.blocked_nodup k e he
    nonempty_ent := by
      intro k e he
      by_cases hk : k = make_host_keyD w.q (w.hs hid)
      · rw [hk] at he
        have h4 := Option.some.inj ((find_mark_blocked_self w hid).symm.trans he)
        rw [← h4]
        intro hc
        have hc1 : ((alist_find w.q.host_entries_
            (make_host_keyD w.q (w.hs hid))).getD empty_entry).blocked ++ [some hid] =
            [] := hc.1
        exact absurd (List.append_eq_nil.mp hc1).2 (List.cons_ne_nil _ _)
      · rw [find_mark_blocked_ne w hid k hk] at he
        exact inv.nonempty_ent k e he
    promoted_clean := fun v hv => Option.noConfusion hv }

theorem c7_inv_activate (w : World) (p : Option Nat) (seen : List Nat) (hid : Nat)
    (inv : C7Inv w p seen) (hmem : hid ∈ w.q.downstreams_)
    (hguard : (w.hs hid).dispatch_state = DISPATCH_PENDING ∨ p = some hid)
    (hsmall : w.q.downstreams_.length < size_t_max) :
    C7Inv (mark_active w hid) none (hid :: seen) := by
  have hnact : (w.hs hid).dispatch_state ≠ DISPATCH_ACTIVE := by
    rcases hguard with h1 | h1
    · rw [h1]
      decide
    · exact (inv.promoted_clean hid h1).2
  have hnolink2 : ∀ k e, alist_find w.q.host_entries_ k = some e →
      some hid ∉ e.blocked := by
    intro k e he hc
    rcases hguard with h1 | h1
    · obtain ⟨v, hxv, hvm, hvs, hvk⟩ := inv.links k e he (some hid) hc
      have hv : v = hid := Option.some.inj hxv.symm
      rw [hv, h1] at hvs
      exact absurd hvs (by decide)
    · exact (inv.promoted_clean hid h1).1 k e he hc
  have hnum_small : ent_num w (make_host_keyD w.q (w.hs hid)) < size_t_max := by
    rw [inv.counts]
    exact lt_of_le_of_lt (active_countL_le_length w _ _) hsmall
  exact
  { reg_nodup := inv.reg_nodup
    reg_seen := fun h hm => List.mem_cons_of_mem _ (inv.reg_seen h hm)
    nodup_keys := alist_nodup_set _ _ _ inv.nodup_keys
    counts := by
      intro k
      by_cases hk : k = make_host_keyD w.q (w.hs hid)
      · rw [hk, ent_num_mark_active_self w hid, szAdd1_eq _ hnum_small]
        show ent_num w (make_host_keyD w.q (w.hs hid)) + 1 =
          active_countL (mark_active w hid) w.q.downstreams_
            (make_host_keyD w.q (w.hs hid))
        have hflip : active_countL (mark_active w hid) w.q.downstreams_
            (make_host_keyD w.q (w.hs hid)) =
            active_countL w w.q.downstreams_ (make_host_keyD w.q (w.hs hid)) + 1 := by
          refine countP_flip w.q.downstreams_ hid _ _ inv.reg_nodup hmem ?_ ?_ ?_
          · intro x hx hxh
            exact is_active_for_congr _ w _ x (by rw [mark_active_hs_ne w hid x hxh])
              (key_of_mark_active w hid x)
          · exact is_active_for_false_state w _ hid hnact
          · exact is_active_for_true (mark_active w hid) _ hid
              (mark_active_state_self w hid)
              ((key_of_mark_active w hid hid).trans (key_of_eq w hid))
        rw [hflip, inv.counts]
        rfl
      · rw [ent_num_mark_active_ne w hid k hk]
        show ent_num w k = active_countL (mark_active w hid) w.q.downstreams_ k
        rw [active_countL_ext (mark_active w hid) w _ k ?_]
        · exact inv.counts k
        · intro x hx
          by_cases hxh : x = hid
          · rw [hxh,
              is_active_for_false_key (mark_active w hid) k hid
                (fun hc => hk ((((key_of_mark_active w hid hid).symm.trans hc).symm.trans
                  (key_of_eq w hid)))),
              is_active_for_false_key w k hid
                (fun hc => hk (hc.symm.trans (key_of_eq w hid)))]
          · exact is_active_for_congr _ w k x (by rw [mark_active_hs_ne w hid x hxh])
              (key_of_mark_active w hid x)
    links := by
      intro k e he x hx
      by_cases hk : k = make_host_keyD w.q (w.hs hid)
      · rw [hk] at he
        have h4 := Option.some.inj ((find_mark_active_self w hid).symm.trans he)
        rw [← h4] at hx
        have hx2 : x ∈ ((alist_find w.q.host_entries_
            (make_host_keyD w.q (w.hs hid))).getD empty_entry).blocked := hx
        cases hf : alist_find w.q.host_entries_ (make_host_keyD w.q (w.hs hid)) with
        | none =>
          rw [hf] at hx2
          exact absurd hx2 (List.not_mem_nil x)
        | some e0 =>
          rw [hf] at hx2
          obtain ⟨v, hxv, hvm, hvs, hvk⟩ := inv.links _ e0 hf x hx2
          have hvne : v ≠ hid := by
            intro hc
            rw [hxv, hc] at hx2
            exact hnolink2 _ e0 hf hx2
          exact ⟨v, hxv, hvm, by rw [mark_active_hs_ne w hid v hvne]; exact hvs,
            by rw [key_of_mark_active w hid v]; exact hvk.trans hk.symm⟩
      · rw [find_mark_active_ne w hid k hk] at he
        obtain ⟨v, hxv, hvm, hvs, hvk⟩ := inv.links k e he x hx
        have hvne : v ≠ hid := by
          intro hc
          rw [hxv, hc] at hx
          exact hnolink2 k e he hx
        exact ⟨v, hxv, hvm, by rw [mark_active_hs_ne w hid v hvne]; exact hvs,
          by rw [key_of_mark_active w hid v]; exact hvk⟩
    blocked_nodup := by
      intro k e he
      by_cases hk : k = make_host_keyD w.q (w.hs hid)
      · rw [hk] at he
        have h4 := Option.some.inj ((find_mark_active_self w hid).symm.trans he)
        rw [← h4]
        show ((alist_find w.q.host_entries_ (make_host_keyD w.q (w.hs hid))).getD
          empty_entry).blocked.Nodup
        cases hf : alist_find w.q.host_entries_ (make_host_keyD w.q (w.hs hid)) with
        | none => exact List.nodup_nil
        | some e0 => exact inv.blocked_nodup _ e0 hf
      · rw [find_mark_active_ne w hid k hk] at he
        exact inv.blocked_nodup k e he
    nonempty_ent := by
      intro k e he
      by_cases hk : k = make_host_keyD w.q (w.hs hid)
      · rw [hk] at he
        have h4 := Option.some.inj ((find_mark_active_self w hid).symm.trans he)
        rw [← h4]
        intro hc
        have hc2 : szAdd1 ((alist_find w.q.host_entries_
            (make_host_keyD w.q (w.hs hid))).getD empty_entry).num_active = 0 := hc.2
        have hlt : ((alist_find w.q.host_entries_
            (make_host_keyD w.q (w.hs hid))).getD empty_entry).num_active <
            size_t_max := hnum_small
        rw [szAdd1_eq _ hlt] at hc2
        exact absurd hc2 (by omega)
      · rw [find_mark_active_ne w hid k hk] at he
        exact inv.nonempty_ent k e he
    promoted_clean := fun v hv => Option.noConfusion hv }
theorem c7_inv_release (w : World) (p : Option Nat) (seen : List Nat) (hid : Nat)
    (inv : C7Inv w p seen) (hmem : hid ∈ w.q.downstreams_)
    (hstate : (w.hs hid).dispatch_state = DISPATCH_PENDING ∨
      (w.hs hid).dispatch_state = DISPATCH_ACTIVE ∨
      (w.hs hid).dispatch_state = DISPATCH_FAILURE)
    (hlen : w.q.downstreams_.length ≤ size_t_max) :
    C7Inv (remove_and_get_blocked w hid).1 (remove_and_get_blocked w hid).2
      (hid :: seen) := by
  have hnb : (w.hs hid).dispatch_state ≠ DISPATCH_BLOCKED := by
    rcases hstate with h | h | h
    · rw [h]; decide
    · rw [h]; decide
    · rw [h]; decide
  have hvne_of : ∀ v, (w.hs v).dispatch_state = DISPATCH_BLOCKED → v ≠ hid := by
    intro v hvs hc
    rw [hc] at hvs
    exact hnb hvs
  have hmem_erase : ∀ v, (w.hs v).dispatch_state = DISPATCH_BLOCKED →
      v ∈ w.q.downstreams_ → v ∈ w.q.downstreams_.erase hid := by
    intro v hvs hvm
    exact (List.Nodup.mem_erase_iff inv.reg_nodup).mpr ⟨hvne_of v hvs, hvm⟩
  have hregN : (w.q.downstreams_.erase hid).Nodup := inv.reg_nodup.erase hid
  have hregS : ∀ h2, h2 ∈ w.q.downstreams_.erase hid → h2 ∈ hid :: seen :=
    fun h2 hm2 => List.mem_cons_of_mem _ (inv.reg_seen h2 (List.mem_of_mem_erase hm2))
  by_cases hact : (w.hs hid).dispatch_state = DISPATCH_ACTIVE
  · have hactF : is_active_for w (key_of w hid) hid = true :=
      is_active_for_true w _ hid hact rfl
    have hcnt : active_countL w w.q.downstreams_ (key_of w hid) =
        active_countL w (w.q.downstreams_.erase hid) (key_of w hid) + 1 := by
      rw [active_countL_erase w w.q.downstreams_ hid (key_of w hid) hmem, hactF]
      simp
    have hcnt_ne : ∀ k, k ≠ key_of w hid →
        active_countL w w.q.downstreams_ k =
          active_countL w (w.q.downstreams_.erase hid) k := by
      intro k hk
      rw [active_countL_erase w w.q.downstreams_ hid k hmem,
        is_active_for_false_key w k hid (fun hc => hk hc.symm)]
      simp
    have hnum1 : 1 ≤ ent_num w (key_of w hid) := by
      rw [inv.counts]
      show 1 ≤ active_countL w w.q.downstreams_ (key_of w hid)
      omega
    cases hfind : alist_find w.q.host_entries_ (key_of w hid) with
    | none =>
      rw [ent_num_of_none w _ hfind] at hnum1
      exact absurd hnum1 (by omega)
    | some e0 =>
      have he0 : rgb_ent0 w hid = e0 := rgb_ent0_some w hid e0 hfind
      have hnum_e0 : ent_num w (key_of w hid) = e0.num_active :=
        ent_num_of_find w _ e0 hfind
      have hb_e0 : 1 ≤ e0.num_active := hnum_e0 ▸ hnum1
      have hecnt : e0.num_active =
          active_countL w (w.q.downstreams_.erase hid) (key_of w hid) + 1 := by
        have h3 : e0.num_active = active_countL w w.q.downstreams_ (key_of w hid) :=
          hnum_e0.symm.trans (inv.counts _)
        omega
      have hsz : e0.num_active ≤ size_t_max := by
        have h1 : active_countL w w.q.downstreams_ (key_of w hid) ≤
            w.q.downstreams_.length := active_countL_le_length w _ _
        have h3 : e0.num_active = active_countL w w.q.downstreams_ (key_of w hid) :=
          hnum_e0.symm.trans (inv.counts _)
        omega
      have hn1 : (rgb_ent1 w hid).num_active = e0.num_active - 1 := by
        rw [rgb_ent1_num_eq, he0, szSub1_eq e0.num_active hb_e0 hsz]
      have hbl1 : (rgb_ent1 w hid).blocked = e0.blocked := by
        rw [rgb_ent1_blocked_eq, he0]
      by_cases hcond : (rgb_ent1 w hid).blocked = [] ∧ (rgb_ent1 w hid).num_active = 0
      · -- entry became empty and is erased
        have he01 : e0.num_active = 1 := by
          have hz := hcond.2
          rw [hn1] at hz
          omega
        rw [rgb_eq_erase w hid hact hcond]
        show C7Inv { w with q := { w.q with
          downstreams_ := w.q.downstreams_.erase hid,
          host_entries_ := alist_erase (rgb_m1 w hid) (key_of w hid) } }
          none (hid :: seen)
        exact
        { reg_nodup := hregN
          reg_seen := hregS
          nodup_keys := alist_nodup_erase _ _ (alist_nodup_set _ _ _ inv.nodup_keys)
          counts := by
            intro k
            by_cases hk : k = key_of w hid
            · rw [hk]
              have hf2 : alist_find (alist_erase (rgb_m1 w hid) (key_of w hid))
                  (key_of w hid) = none :=
                alist_find_erase_self _ _ (alist_nodup_set _ _ _ inv.nodup_keys)
              show ((alist_find (alist_erase (rgb_m1 w hid) (key_of w hid))
                (key_of w hid)).getD empty_entry).num_active =
                active_countL w (w.q.downstreams_.erase hid) (key_of w hid)
              rw [hf2]
              show 0 = active_countL w (w.q.downstreams_.erase hid) (key_of w hid)
              omega
            · have hf2 : alist_find (alist_erase (rgb_m1 w hid) (key_of w hid)) k =
                  alist_find w.q.host_entries_ k := by
                rw [alist_find_erase_ne (rgb_m1 w hid) (key_of w hid) k hk,
                  show alist_find (rgb_m1 w hid) k = alist_find w.q.host_entries_ k from
                    alist_find_set_ne _ _ _ _ hk]
              show ((alist_find (alist_erase (rgb_m1 w hid) (key_of w hid)) k).getD
                empty_entry).num_active = active_countL w (w.q.downstreams_.erase hid) k
              rw [hf2, ← hcnt_ne k hk]
              exact inv.counts k
          links := by
            intro k e he x hx
            by_cases hk : k = key_of w hid
            · rw [hk] at he
              exact Option.noConfusion ((alist_find_erase_self (rgb_m1 w hid)
                (key_of w hid) (alist_nodup_set _ _ _ inv.nodup_keys)).symm.trans he)
            · have h2 := (alist_find_erase_ne (rgb_m1 w hid) (key_of w hid) k
                hk).symm.trans he
              have h3 := (alist_find_set_ne _ _ _ _ hk).symm.trans h2
              obtain ⟨v, hxv, hvm, hvs, hvk⟩ := inv.links k e h3 x hx
              exact ⟨v, hxv, hmem_erase v hvs hvm, hvs, hvk⟩
          blocked_nodup := by
            intro k e he
            by_cases hk : k = key_of w hid
            · rw [hk] at he
              exact Option.noConfusion ((alist_find_erase_self (rgb_m1 w hid)
                (key_of w hid) (alist_nodup_set _ _ _ inv.nodup_keys)).symm.trans he)
            · have h2 := (alist_find_erase_ne (rgb_m1 w hid) (key_of w hid) k
                hk).symm.trans he
              exact inv.blocked_nodup k e ((alist_find_set_ne _ _ _ _ hk).symm.trans h2)
          nonempty_ent := by
            intro k e he
            by_cases hk : k = key_of w hid
            · rw [hk] at he
              exact Option.noConfusion ((alist_find_erase_self (rgb_m1 w hid)
                (key_of w hid) (alist_nodup_set _ _ _ inv.nodup_keys)).symm.trans he)
            · have h2 := (alist_find_erase_ne (rgb_m1 w hid) (key_of w hid) k
                hk).symm.trans he
              exact inv.nonempty_ent k e ((alist_find_set_ne _ _ _ _ hk).symm.trans h2)
          promoted_clean := fun v hv => Option.noConfusion hv }
      · by_cases hcap : w.q.conn_max_per_host_ ≤ (rgb_ent1 w hid).num_active
        · -- still at or above the cap: no promotion
          rw [rgb_eq_capfull w hid hact hcond hcap]
          show C7Inv { w with q := { w.q with
            downstreams_ := w.q.downstreams_.erase hid,
            host_entries_ := rgb_m1 w hid } } none (hid :: seen)
          exact
          { reg_nodup := hregN
            reg_seen := hregS
            nodup_keys := alist_nodup_set _ _ _ inv.nodup_keys
            counts := by
              intro k
              by_cases hk : k = key_of w hid
              · rw [hk]
                have hf2 : alist_find (rgb_m1 w hid) (key_of w hid) =
                    some (rgb_ent1 w hid) := alist_find_set_self _ _ _
                show ((alist_find (rgb_m1 w hid) (key_of w hid)).getD
                  empty_entry).num_active =
                  active_countL w (w.q.downstreams_.erase hid) (key_of w hid)
                rw [hf2]
                show (rgb_ent1 w hid).num_active =
                  active_countL w (w.q.downstreams_.erase hid) (key_of w hid)
                rw [hn1]
                omega
              · have hf2 : alist_find (rgb_m1 w hid) k = alist_find w.q.host_entries_ k :=
                  alist_find_set_ne _ _ _ _ hk
                show ((alist_find (rgb_m1 w hid) k).getD empty_entry).num_active =
                  active_countL w (w.q.downstreams_.erase hid) k
                rw [hf2, ← hcnt_ne k hk]
                exact inv.counts k
            links := by
              intro k e he x hx
              by_cases hk : k = key_of w hid
              · rw [hk] at he
                have h4 := Option.some.inj ((alist_find_set_self w.q.host_entries_
                  (key_of w hid) (rgb_ent1 w hid)).symm.trans he)
                rw [← h4, hbl1] at hx
                obtain ⟨v, hxv, hvm, hvs, hvk⟩ := inv.links _ e0 hfind x hx
                exact ⟨v, hxv, hmem_erase v hvs hvm, hvs, hvk.trans hk.symm⟩
              · have h3 := (alist_find_set_ne _ _ _ _ hk).symm.trans he
                obtain ⟨v, hxv, hvm, hvs, hvk⟩ := inv.links k e h3 x hx
                exact ⟨v, hxv, hmem_erase v hvs hvm, hvs, hvk⟩
            blocked_nodup := by
              intro k e he
              by_cases hk : k = key_of w hid
              · rw [hk] at he
                have h4 := Option.some.inj ((alist_find_set_self w.q.host_entries_
                  (key_of w hid) (rgb_ent1 w hid)).symm.trans he)
                rw [← h4]
                show (rgb_ent1 w hid).blocked.Nodup
                rw [hbl1]
                exact inv.blocked_nodup _ e0 hfind
              · exact inv.blocked_nodup k e ((alist_find_set_ne _ _ _ _ hk).symm.trans he)
            nonempty_ent := by
              intro k e he
              by_cases hk : k = key_of w hid
              · rw [hk] at he
                have h4 := Option.some.inj ((alist_find_set_self w.q.host_entries_
                  (key_of w hid) (rgb_ent1 w hid)).symm.trans he)
                rw [← h4]
                exact hcond
              · exact inv.nonempty_ent k e ((alist_find_set_ne _ _ _ _ hk).symm.trans he)
            promoted_clean := fun v hv => Option.noConfusion hv }
        · -- capacity freed: the scan runs
          cases hbl : e0.blocked with
          | nil =>
            have hscan : scan_blocked (rgb_ent1 w hid).blocked = (none, []) := by
              rw [hbl1, hbl]
              rfl
            have hnz : (rgb_ent1 w hid).num_active ≠ 0 := fun h0 =>
              hcond ⟨by rw [hbl1, hbl], h0⟩
            rw [rgb_eq_exhaust w hid [] hact hcond hcap hscan]
            show C7Inv { w with q := { w.q with
              downstreams_ := w.q.downstreams_.erase hid,
              host_entries_ := alist_set w.q.host_entries_ (key_of w hid)
                { rgb_ent1 w hid with blocked := [] } } } none (hid :: seen)
            exact
            { reg_nodup := hregN
              reg_seen := hregS
              nodup_keys := alist_nodup_set _ _ _ inv.nodup_keys
              counts := by
                intro k
                by_cases hk : k = key_of w hid
                · rw [hk]
                  have hf2 : alist_find (alist_set w.q.host_entries_ (key_of w hid)
                      { rgb_ent1 w hid with blocked := [] }) (key_of w hid) =
                      some { rgb_ent1 w hid with blocked := [] } :=
                    alist_find_set_self _ _ _
                  show ((alist_find (alist_set w.q.host_entries_ (key_of w hid)
                    { rgb_ent1 w hid with blocked := [] }) (key_of w hid)).getD
                    empty_entry).num_active =
                    active_countL w (w.q.downstreams_.erase hid) (key_of w hid)
                  rw [hf2]
                  show (rgb_ent1 w hid).num_active =
                    active_countL w (w.q.downstreams_.erase hid) (key_of w hid)
                  rw [hn1]
                  omega
                · have hf2 : alist_find (alist_set w.q.host_entries_ (key_of w hid)
                      { rgb_ent1 w hid with blocked := [] }) k =
                      alist_find w.q.host_entries_ k := alist_find_set_ne _ _ _ _ hk
                  show ((alist_find (alist_set w.q.host_entries_ (key_of w hid)
                    { rgb_ent1 w hid with blocked := [] }) k).getD
                    empty_entry).num_active =
                    active_countL w (w.q.downstreams_.erase hid) k
                  rw [hf2, ← hcnt_ne k hk]
                  exact inv.counts k
              links := by
                intro k e he x hx
                by_cases hk : k = key_of w hid
                · rw [hk] at he
                  have h4 := Option.some.inj ((alist_find_set_self w.q.host_entries_
                    (key_of w hid) { rgb_ent1 w hid with blocked := [] }).symm.trans he)
                  rw [← h4] at hx
                  exact absurd hx (List.not_mem_nil x)
                · have h3 := (alist_find_set_ne _ _ _ _ hk).symm.trans he
                  obtain ⟨v, hxv, hvm, hvs, hvk⟩ := inv.links k e h3 x hx
                  exact ⟨v, hxv, hmem_erase v hvs hvm, hvs, hvk⟩
              blocked_nodup := by
                intro k e he
                by_cases hk : k = key_of w hid
                · rw [hk] at he
                  have h4 := Option.some.inj ((alist_find_set_self w.q.host_entries_
                    (key_of w hid) { rgb_ent1 w hid with blocked := [] }).symm.trans he)
                  rw [← h4]
                  exact List.nodup_nil
                · exact inv.blocked_nodup k e
                    ((alist_find_set_ne _ _ _ _ hk).symm.trans he)
              nonempty_ent := by
                intro k e he
                by_cases hk : k = key_of w hid
                · rw [hk] at he
                  have h4 := Option.some.inj ((alist_find_set_self w.q.host_entries_
                    (key_of w hid) { rgb_ent1 w hid with blocked := [] }).symm.trans he)
                  rw [← h4]
                  intro hc
                  exact hnz hc.2
                · exact inv.nonempty_ent k e
                    ((alist_find_set_ne _ _ _ _ hk).symm.trans he)
              promoted_clean := fun v hv => Option.noConfusion hv }
          | cons x t =>
            obtain ⟨wid0, hx0, hwm, hws, hwk⟩ := inv.links _ e0 hfind x
              (by rw [hbl]; exact List.mem_cons_self x t)
            have hblc : e0.blocked = some wid0 :: t := by rw [hbl, hx0]
            have hscan : scan_blocked (rgb_ent1 w hid).blocked = (some wid0, t) := by
              rw [hbl1, hblc]
              rfl
            have hnodup0 : (some wid0 :: t).Nodup := by
              have h5 := inv.blocked_nodup _ e0 hfind
              rw [hblc] at h5
              exact h5
            have hw0nt : some wid0 ∉ t := (List.nodup_cons.mp hnodup0).1
            rw [rgb_eq_promote_pw w hid wid0 t hact hcond hcap hscan]
            show C7Inv (promote_world w hid wid0 t) (some wid0) (hid :: seen)
            have hacL : ∀ l' k, active_countL (promote_world w hid wid0 t) l' k =
                active_countL w l' k := fun l' k =>
              active_countL_ext _ w l' k (fun x2 hx2 => is_active_for_congr _ w k x2
                (promote_world_state w hid wid0 t x2) (promote_world_key w hid wid0 t x2))
            exact
            { reg_nodup := hregN
              reg_seen := hregS
              nodup_keys := by
                rw [promote_world_entries]
                unfold remove_host_entry_if_empty
                by_cases hc2 : ({ rgb_ent1 w hid with blocked := t } :
                    HostEntry).blocked = [] ∧
                    ({ rgb_ent1 w hid with blocked := t } : HostEntry).num_active = 0
                · rw [if_pos hc2]
                  exact alist_nodup_erase _ _ (alist_nodup_set _ _ _ inv.nodup_keys)
                · rw [if_neg hc2]
                  exact alist_nodup_set _ _ _ inv.nodup_keys
              counts := by
                intro k
                by_cases hk : k = key_of w hid
                · rw [hk]
                  by_cases hc2 : ({ rgb_ent1 w hid with blocked := t } :
                      HostEntry).blocked = [] ∧
                      ({ rgb_ent1 w hid with blocked := t } : HostEntry).num_active = 0
                  · have hf2 : alist_find (promote_world w hid wid0 t).q.host_entries_
                        (key_of w hid) = none := by
                      rw [promote_world_entries]
                      exact find_rhie_self_empty _ _ _ inv.nodup_keys hc2
                    rw [ent_num_of_none _ _ hf2]
                    show 0 = active_countL (promote_world w hid wid0 t)
                      (w.q.downstreams_.erase hid) (key_of w hid)
                    rw [hacL]
                    have hz : (rgb_ent1 w hid).num_active = 0 := hc2.2
                    omega
                  · have hf2 : alist_find (promote_world w hid wid0 t).q.host_entries_
                        (key_of w hid) = some { rgb_ent1 w hid with blocked := t } := by
                      rw [promote_world_entries]
                      exact find_rhie_self_keep _ _ _ hc2
                    rw [ent_num_of_find _ _ _ hf2]
                    show (rgb_ent1 w hid).num_active =
                      active_countL (promote_world w hid wid0 t)
                        (w.q.downstreams_.erase hid) (key_of w hid)
                    rw [hacL, hn1]
                    omega
                · have hf2 : alist_find (promote_world w hid wid0 t).q.host_entries_ k =
                      alist_find w.q.host_entries_ k := by
                    rw [promote_world_entries]
                    exact find_rhie_ne _ _ _ _ hk
                  show ((alist_find (promote_world w hid wid0 t).q.host_entries_ k).getD
                    empty_entry).num_active =
                    active_countL (promote_world w hid wid0 t)
                      (w.q.downstreams_.erase hid) k
                  rw [hf2, hacL, ← hcnt_ne k hk]
                  exact inv.counts k
              links := by
                intro k e he x2 hx2
                rw [promote_world_entries] at he
                by_cases hk : k = key_of w hid
                · rw [hk] at he
                  by_cases hc2 : ({ rgb_ent1 w hid with blocked := t } :
                      HostEntry).blocked = [] ∧
                      ({ rgb_ent1 w hid with blocked := t } : HostEntry).num_active = 0
                  · exact Option.noConfusion
                      ((find_rhie_self_empty _ _ _ inv.nodup_keys hc2).symm.trans he)
                  · have h4 := Option.some.inj ((find_rhie_self_keep _ _ _ hc2).symm.trans
                      he)
                    rw [← h4] at hx2
                    have hx3 : x2 ∈ t := hx2
                    have hx4 : x2 ∈ e0.blocked := by
                      rw [hblc]
                      exact List.mem_cons_of_mem _ hx3
                    obtain ⟨v, hxv, hvm, hvs, hvk⟩ := inv.links _ e0 hfind x2 hx4
                    refine ⟨v, hxv, hmem_erase v hvs hvm, ?_, ?_⟩
                    · rw [promote_world_state]
                      exact hvs
                    · rw [promote_world_key]
                      exact hvk.trans hk.symm
                · have h3 := (find_rhie_ne _ _ _ _ hk).symm.trans he
                  obtain ⟨v, hxv, hvm, hvs, hvk⟩ := inv.links k e h3 x2 hx2
                  refine ⟨v, hxv, hmem_erase v hvs hvm, ?_, ?_⟩
                  · rw [promote_world_state]
                    exact hvs
                  · rw [promote_world_key]
                    exact hvk
              blocked_nodup := by
                intro k e he
                rw [promote_world_entries] at he
                by_cases hk : k = key_of w hid
                · rw [hk] at he
                  by_cases hc2 : ({ rgb_ent1 w hid with blocked := t } :
                      HostEntry).blocked = [] ∧
                      ({ rgb_ent1 w hid with blocked := t } : HostEntry).num_active = 0
                  · exact Option.noConfusion
                      ((find_rhie_self_empty _ _ _ inv.nodup_keys hc2).symm.trans he)
                  · have h4 := Option.some.inj ((find_rhie_self_keep _ _ _ hc2).symm.trans
                      he)
                    rw [← h4]
                    show t.Nodup
                    exact (List.nodup_cons.mp hnodup0).2
                · exact inv.blocked_nodup k e ((find_rhie_ne _ _ _ _ hk).symm.trans he)
              nonempty_ent := by
                intro k e he
                rw [promote_world_entries] at he
                by_cases hk : k = key_of w hid
                · rw [hk] at he
                  by_cases hc2 : ({ rgb_ent1 w hid with blocked := t } :
                      HostEntry).blocked = [] ∧
                      ({ rgb_ent1 w hid with blocked := t } : HostEntry).num_active = 0
                  · exact Option.noConfusion
                      ((find_rhie_self_empty _ _ _ inv.nodup_keys hc2).symm.trans he)
                  · have h4 := Option.some.inj ((find_rhie_self_keep _ _ _ hc2).symm.trans
                      he)
                    rw [← h4]
                    exact hc2
                · exact inv.nonempty_ent k e ((find_rhie_ne _ _ _ _ hk).symm.trans he)
              promoted_clean := by
                intro v hv
                have hv2 : wid0 = v := Option.some.inj hv
                refine ⟨?_, ?_⟩
                · intro k e he hcmem
                  rw [promote_world_entries] at he
                  by_cases hk : k = key_of w hid
                  · rw [hk] at he
                    by_cases hc2 : ({ rgb_ent1 w hid with blocked := t } :
                        HostEntry).blocked = [] ∧
                        ({ rgb_ent1 w hid with blocked := t } : HostEntry).num_active = 0
                    · exact Option.noConfusion
                        ((find_rhie_self_empty _ _ _ inv.nodup_keys hc2).symm.trans he)
                    · have h4 := Option.some.inj
                        ((find_rhie_self_keep _ _ _ hc2).symm.trans he)
                      rw [← h4] at hcmem
                      have h5 : some v ∈ t := hcmem
                      rw [← hv2] at h5
                      exact hw0nt h5
                  · have h3 := (find_rhie_ne _ _ _ _ hk).symm.trans he
                    obtain ⟨v2, hxv, hvm, hvs, hvk⟩ := inv.links k e h3 (some v) hcmem
                    have h6 : v2 = v := Option.some.inj hxv.symm
                    rw [h6, ← hv2] at hvk
                    exact hk (hvk.symm.trans hwk)
                · rw [promote_world_state, ← hv2, hws]
                  decide }
  · rw [rgb_not_active w hid hact]
    show C7Inv { w with q := { w.q with
      downstreams_ := w.q.downstreams_.erase hid } } none (hid :: seen)
    exact
    { reg_nodup := hregN
      reg_seen := hregS
      nodup_keys := inv.nodup_keys
      counts := by
        intro k
        show ent_num w k = active_countL w (w.q.downstreams_.erase hid) k
        rw [inv.counts k]
        show active_countL w w.q.downstreams_ k =
          active_countL w (w.q.downstreams_.erase hid) k
        rw [active_countL_erase w w.q.downstreams_ hid k hmem,
          is_active_for_false_state w k hid hact]
        simp
      links := by
        intro k e he x hx
        obtain ⟨v, hxv, hvm, hvs, hvk⟩ := inv.links k e he x hx
        exact ⟨v, hxv, hmem_erase v hvs hvm, hvs, hvk⟩
      blocked_nodup := fun k e he => inv.blocked_nodup k e he
      nonempty_ent := fun k e he => inv.nonempty_ent k e he
      promoted_clean := fun v hv => Option.noConfusion hv }
theorem c7_endgame (w : World) (p : Option Nat) (seen : List Nat)
    (inv : C7Inv w p seen) (hreg : w.q.downstreams_ = []) :
    w.q.host_entries_ = [] := by
  cases hm : w.q.host_entries_ with
  | nil => rfl
  | cons kv tl =>
    obtain ⟨k0, e0⟩ := kv
    have hfind : alist_find w.q.host_entries_ k0 = some e0 := by
      rw [hm, alist_find_cons, if_pos rfl]
    have hnum : e0.num_active = 0 := by
      have h1 : e0.num_active = active_count w k0 :=
        (ent_num_of_find w k0 e0 hfind).symm.trans (inv.counts k0)
      have h2 : active_countL w w.q.downstreams_ k0 = 0 := by
        rw [hreg]
        rfl
      exact h1.trans h2
    have hblk : e0.blocked = [] := by
      cases hb : e0.blocked with
      | nil => rfl
      | cons x xs =>
        obtain ⟨v, hxv, hvm, hvs, hvk⟩ := inv.links k0 e0 hfind x
          (by rw [hb]; exact List.mem_cons_self x xs)
        rw [hreg] at hvm
        exact absurd hvm (List.not_mem_nil v)
    exact absurd ⟨hblk, hnum⟩ (inv.nonempty_ent k0 e0 hfind)

theorem valid_ops_no_resubmit (l : List Op) :
    ∀ (w : World) (p : Option Nat) (seen : List Nat), valid_ops w p seen l = true →
      ∀ hid, hid ∈ seen → ∀ auth, Op.submit hid auth ∉ l := by
  induction l with
  | nil =>
    intro w p seen _ hid _ auth h
    exact absurd h (List.not_mem_nil _)
  | cons op rest ih =>
    intro w p seen hv hid hseen auth hmem
    simp only [valid_ops, Bool.and_eq_true] at hv
    rcases List.mem_cons.mp hmem with h1 | h1
    · rw [← h1] at hv
      have hg : decide (hid ∉ seen) = true := hv.1
      rw [decide_eq_true_eq] at hg
      exact hg hseen
    · cases op with
      | submit h2 a2 => exact ih _ _ _ hv.2 hid (List.mem_cons_of_mem _ hseen) auth h1
      | failure_of h2 => exact ih _ _ _ hv.2 hid (List.mem_cons_of_mem _ hseen) auth h1
      | activate h2 => exact ih _ _ _ hv.2 hid (List.mem_cons_of_mem _ hseen) auth h1
      | block h2 => exact ih _ _ _ hv.2 hid (List.mem_cons_of_mem _ hseen) auth h1
      | release h2 => exact ih _ _ _ hv.2 hid (List.mem_cons_of_mem _ hseen) auth h1

theorem rgb_downstreams (w : World) (hid : Nat) :
    (remove_and_get_blocked w hid).1.q.downstreams_ = w.q.downstreams_.erase hid := by
  by_cases hact : (w.hs hid).dispatch_state = DISPATCH_ACTIVE
  · by_cases hcond : (rgb_ent1 w hid).blocked = [] ∧ (rgb_ent1 w hid).num_active = 0
    · rw [rgb_eq_erase w hid hact hcond]
    · by_cases hcap : w.q.conn_max_per_host_ ≤ (rgb_ent1 w hid).num_active
      · rw [rgb_eq_capfull w hid hact hcond hcap]
      · rcases hscan : scan_blocked (rgb_ent1 w hid).blocked with ⟨r, rest⟩
        cases r with
        | none => rw [rgb_eq_exhaust w hid rest hact hcond hcap hscan]
        | some wid =>
          rw [rgb_eq_promote_pw w hid wid rest hact hcond hcap hscan]
          rfl
  · rw [rgb_not_active w hid hact]
theorem c7_run (ops : List Op) :
    ∀ (w : World) (p : Option Nat) (seen : List Nat),
      C7Inv w p seen → valid_ops w p seen ops = true →
      w.q.downstreams_.length + ops.length ≤ size_t_max →
      (∀ h, h ∈ w.q.downstreams_ → Op.release h ∈ ops) →
      (∀ hid auth, Op.submit hid auth ∈ ops → Op.release hid ∈ ops) →
      (run w ops).q.downstreams_ = [] ∧ (run w ops).q.host_entries_ = [] := by
  induction ops with
  | nil =>
    intro w p seen inv _ _ hsub _
    have hreg : w.q.downstreams_ = [] :=
      List.eq_nil_iff_forall_not_mem.mpr
        (fun h hm => absurd (hsub h hm) (List.not_mem_nil _))
    exact ⟨hreg, c7_endgame w p seen inv hreg⟩
  | cons op rest ih =>
    intro w p seen inv hv hlen hsub hrel
    simp only [valid_ops, Bool.and_eq_true] at hv
    have hlen2 : w.q.downstreams_.length + (rest.length + 1) ≤ size_t_max := hlen
    have hrel2 : ∀ h2 a2, Op.submit h2 a2 ∈ rest → Op.release h2 ∈ op :: rest :=
      fun h2 a2 hm2 => hrel h2 a2 (List.mem_cons_of_mem _ hm2)
    cases op with
    | submit hid auth =>
      have hg : hid ∉ seen := of_decide_eq_true hv.1
      refine ih _ _ _ (c7_inv_submit w p seen hid auth inv hg) hv.2 ?_ ?_ ?_
      · show (w.q.downstreams_ ++ [hid]).length + rest.length ≤ size_t_max
        rw [List.length_append]
        show w.q.downstreams_.length + 1 + rest.length ≤ size_t_max
        omega
      · intro h hm
        have hm2 : h ∈ w.q.downstreams_ ++ [hid] := hm
        rcases List.mem_append.mp hm2 with h1 | h1
        · rcases List.mem_cons.mp (hsub h h1) with h2 | h2
          · exact Op.noConfusion h2
          · exact h2
        · rw [List.mem_singleton] at h1
          rw [h1]
          rcases List.mem_cons.mp (hrel hid auth (List.mem_cons_self _ _)) with h2 | h2
          · exact Op.noConfusion h2
          · exact h2
      · intro h2 a2 hm2
        rcases List.mem_cons.mp (hrel2 h2 a2 hm2) with h3 | h3
        · exact Op.noConfusion h3
        · exact h3
    | failure_of hid =>
      have hg : (decide (hid ∈ w.q.downstreams_) &&
          decide ((w.hs hid).dispatch_state = DISPATCH_PENDING)) = true := hv.1
      rw [Bool.and_eq_true] at hg
      have hmem : hid ∈ w.q.downstreams_ := of_decide_eq_true hg.1
      have hpend : (w.hs hid).dispatch_state = DISPATCH_PENDING :=
        of_decide_eq_true hg.2
      refine ih _ _ _ (c7_inv_failure w p seen hid inv hpend) hv.2 ?_ ?_ ?_
      · show w.q.downstreams_.length + rest.length ≤ size_t_max
        omega
      · intro h hm
        rcases List.mem_cons.mp (hsub h hm) with h2 | h2
        · exact Op.noConfusion h2
        · exact h2
      · intro h2 a2 hm2
        rcases List.mem_cons.mp (hrel2 h2 a2 hm2) with h3 | h3
        · exact Op.noConfusion h3
        · exact h3
    | activate hid =>
      have hg : (decide (hid ∈ w.q.downstreams_) &&
          (decide ((w.hs hid).dispatch_state = DISPATCH_PENDING) ||
           decide (p = some hid))) = true := hv.1
      rw [Bool.and_eq_true, Bool.or_eq_true] at hg
      have hmem : hid ∈ w.q.downstreams_ := of_decide_eq_true hg.1
      have hguard : (w.hs hid).dispatch_state = DISPATCH_PENDING ∨ p = some hid := by
        rcases hg.2 with h2 | h2
        · exact Or.inl (of_decide_eq_true h2)
        · exact Or.inr (of_decide_eq_true h2)
      have hsmall : w.q.downstreams_.length < size_t_max := by omega
      refine ih _ _ _ (c7_inv_activate w p seen hid inv hmem hguard hsmall) hv.2 ?_ ?_ ?_
      · show w.q.downstreams_.length + rest.length ≤ size_t_max
        omega
      · intro h hm
        rcases List.mem_cons.mp (hsub h hm) with h2 | h2
        · exact Op.noConfusion h2
        · exact h2
      · intro h2 a2 hm2
        rcases List.mem_cons.mp (hrel2 h2 a2 hm2) with h3 | h3
        · exact Op.noConfusion h3
        · exact h3
    | block hid =>
      have hg : (decide (hid ∈ w.q.downstreams_) &&
          decide ((w.hs hid).dispatch_state = DISPATCH_PENDING)) = true := hv.1
      rw [Bool.and_eq_true] at hg
      have hmem : hid ∈ w.q.downstreams_ := of_decide_eq_true hg.1
      have hpend : (w.hs hid).dispatch_state = DISPATCH_PENDING :=
        of_decide_eq_true hg.2
      refine ih _ _ _ (c7_inv_blocked w p seen hid inv hmem hpend) hv.2 ?_ ?_ ?_
      · show w.q.downstreams_.length + rest.length ≤ size_t_max
        omega
      · intro h hm
        rcases List.mem_cons.mp (hsub h hm) with h2 | h2
        · exact Op.noConfusion h2
        · exact h2
      · intro h2 a2 hm2
        rcases List.mem_cons.mp (hrel2 h2 a2 hm2) with h3 | h3
        · exact Op.noConfusion h3
        · exact h3
    | release hid =>
      have hg : (decide (hid ∈ w.q.downstreams_) &&
          (decide ((w.hs hid).dispatch_state = DISPATCH_PENDING) ||
           decide ((w.hs hid).dispatch_state = DISPATCH_ACTIVE) ||
           decide ((w.hs hid).dispatch_state = DISPATCH_FAILURE))) = true := hv.1
      rw [Bool.and_eq_true, Bool.or_eq_true, Bool.or_eq_true] at hg
      have hmem : hid ∈ w.q.downstreams_ := of_decide_eq_true hg.1
      have hstate : (w.hs hid).dispatch_state = DISPATCH_PENDING ∨
          (w.hs hid).dispatch_state = DISPATCH_ACTIVE ∨
          (w.hs hid).dispatch_state = DISPATCH_FAILURE := by
        rcases hg.2 with h2 | h2
        · rcases h2 with h3 | h3
          · exact Or.inl (of_decide_eq_true h3)
          · exact Or.inr (Or.inl (of_decide_eq_true h3))
        · exact Or.inr (Or.inr (of_decide_eq_true h2))
      have hlenw : w.q.downstreams_.length ≤ size_t_max := by omega
      refine ih _ _ _ (c7_inv_release w p seen hid inv hmem hstate hlenw) hv.2 ?_ ?_ ?_
      · show (remove_and_get_blocked w hid).1.q.downstreams_.length + rest.length ≤
          size_t_max
        rw [rgb_downstreams w hid]
        have h5 : (w.q.downstreams_.erase hid).length ≤ w.q.downstreams_.length :=
          (w.q.downstreams_.erase_sublist hid).length_le
        omega
      · intro h hm
        have hm2 : h ∈ (remove_and_get_blocked w hid).1.q.downstreams_ := hm
        rw [rgb_downstreams w hid] at hm2
        have hne : h ≠ hid := ((List.Nodup.mem_erase_iff inv.reg_nodup).mp hm2).1
        rcases List.mem_cons.mp (hsub h (List.mem_of_mem_erase hm2)) with h2 | h2
        · exact absurd (by injection h2) hne
        · exact h2
      · intro h2 a2 hm2
        rcases List.mem_cons.mp (hrel2 h2 a2 hm2) with h3 | h3
        · have h4 : h2 = hid := by injection h3
          rw [h4] at hm2
          exact absurd hm2 (valid_ops_no_resubmit rest _ _ _ hv.2 hid
            (List.mem_cons_self _ _) a2)
        · exact h3
theorem c7_inv_init (cap : Nat) (u : Bool) : C7Inv (World.init cap u) none [] where
  reg_nodup := List.nodup_nil
  reg_seen := fun h hm => absurd hm (List.not_mem_nil h)
  nodup_keys := List.nodup_nil
  counts := fun _ => rfl
  links := fun _ _ he => Option.noConfusion he
  blocked_nodup := fun _ _ he => Option.noConfusion he
  nonempty_ent := fun _ _ he => Option.noConfusion he
  promoted_clean := fun _ hv => Option.noConfusion hv

/-- C7 counterexample: the sequence submit 0, mark_blocked 0, release 0 is
well-formed (the only submitted handle is released), yet it ends with an empty
registry and a NON-empty destination map: releasing the still-BLOCKED handle
takes the early non-ACTIVE path, which erases it from the registry but leaves
its entry -- with its now dangling link -- in the map. -/
theorem c7_counterexample :
    wf_ops [] [] c7ops = true ∧
    (c7ops.all fun op => match op with
      | .submit hid _ => decide (Op.release hid ∈ c7ops)
      | _ => true) = true ∧
    (run (World.init 2 false) c7ops).q.downstreams_ = [] ∧
    (run (World.init 2 false) c7ops).q.host_entries_ =
      [(hostx, { num_active := 0, blocked := [some 0] })] := by
  decide

/-- C7 (amended): under the dispatch state machine -- fresh submits,
`mark_active` on a PENDING handle or on the waiter just returned by
`remove_and_get_blocked`, `mark_blocked` and `mark_failure` on PENDING
handles, and releases only of PENDING, ACTIVE or FAILURE handles (a BLOCKED
handle is promoted before being released) -- and at most `SIZE_MAX`
operations, every sequence in which each submitted handle is eventually
released ends with both the global registry and the destination map empty. -/
theorem c7_no_leak (cap : Nat) (u : Bool) (ops : List Op)
    (hlen : ops.length ≤ size_t_max)
    (hvalid : valid_ops (World.init cap u) none [] ops = true)
    (hrel : (ops.all fun op => match op with
      | .submit hid _ => decide (Op.release hid ∈ ops)
      | _ => true) = true) :
    (run (World.init cap u) ops).q.downstreams_ = [] ∧
    (run (World.init cap u) ops).q.host_entries_ = [] := by
  have hrel2 : ∀ hid auth, Op.submit hid auth ∈ ops → Op.release hid ∈ ops := by
    intro hid auth hm
    have h1 := List.all_eq_true.mp hrel _ hm
    exact of_decide_eq_true h1
  exact c7_run ops (World.init cap u) none [] (c7_inv_init cap u) hvalid
    (show 0 + ops.length ≤ size_t_max from by omega)
    (fun h hm => absurd hm (List.not_mem_nil h)) hrel2

/-- A fully released trace used to instantiate the amended no-leak theorem. -/
def c7wops : List Op := [Op.submit 0 hostx, Op.activate 0, Op.release 0]

theorem c7_witness :
    (c7wops.length ≤ size_t_max ∧
     valid_ops (World.init 2 false) none [] c7wops = true ∧
     (c7wops.all fun op => match op with
       | .submit hid _ => decide (Op.release hid ∈ c7wops)
       | _ => true) = true) ∧
    ((run (World.init 2 false) c7wops).q.downstreams_ = [] ∧
     (run (World.init 2 false) c7wops).q.host_entries_ = []) :=
  ⟨⟨by decide, by decide, by decide⟩,
   c7_no_leak 2 false c7wops (by decide) (by decide) (by decide)⟩
